import Mathlib

/-!
encfs4win: idle watchdog and the Win32 condition-variable emulation

A shallow embedding of

* `src/encfs/main.cpp`: `idleMonitor`, `unmountFS`, `encfs_init`,
  the shutdown of the monitor in `main`, `processArgs`, `slashTerminate`, `unslashTerminate`;
* `src/encfs/compatwin.cpp`: `pthread_cond_init`, `pthread_cond_wait`,
  `pthread_cond_timedwait`, `pthread_cond_signal`, `pthread_cond_broadcast`,
  `truncate_handle`, `unix::ftruncate`, `unix::truncate`, `timevalToFiletime`, `errtable`,
  `win32_error_to_errno`, `errno_to_win32_error`, `utf8_to_wfn`.

Conventions.  C++ `int` objects are `Int`.  The product in `timeoutCycles` is
reduced to 32 bits explicitly.  The counters that are only ever stepped by
`++` and `--` (`idleCycles`, `waiters_count_`, `release_count_`,
`wait_generation_count_`) are exact integers: signed overflow is undefined in
C++, and it would take 2^31 steps to get there.
-/

namespace EncFS

/-! ## main.cpp: the idle monitoring thread -/

/-- Source: `const int ActivityCheckInterval = 10;`. -/
def ActivityCheckInterval : Int := 10

/-- Reduction of an integer to the range of a 32-bit `int` (two-complement wrap-around). -/
def wrapInt32 (x : Int) : Int := (x + 2147483648) % 4294967296 - 2147483648

/-- Source: `const int timeoutCycles = 60 * arg->idleTimeout / ActivityCheckInterval;`
The product is an `int`; `/` on `int` truncates toward zero. -/
def timeoutCycles (idleTimeout : Int) : Int :=
  Int.tdiv (wrapInt32 (60 * idleTimeout)) ActivityCheckInterval

/-- What one pass of the `while (ctx->running)` loop reads from the shared context:
the `running` flag at the loop head, the two counters handed back by
`ctx->getAndResetUsageCounter(&usage, &openCount)`, and `ctx->isMounted()`. -/
structure Poll where
  running : Bool
  usage : Int
  openCount : Int
  isMounted : Bool
  deriving DecidableEq, Repr

/-- Observable actions of the monitor thread, in program order. -/
inductive Event where
  /-- Log line `RLOG(INFO) << "Filesystem mounted: "`. -/
  | logMounted
  /-- Log line `RLOG(INFO) << "Filesystem no longer inactive: "`. -/
  | logNoLongerInactive
  /-- The on-demand branch of `unmountFS`: `ctx->setRoot(std::shared_ptr<DirNode>())`. -/
  | detach
  /-- The other branch of `unmountFS`: `fuse_unmount(...)`. -/
  | fuseUnmount
  /-- Log line `RLOG(WARNING) << "Filesystem inactive, but " << openCount << " files opened: "`. -/
  | logFilesOpened (openCount : Int)
  /-- Call of `pthread_cond_wait(&ctx->wakeupCond, &ctx->wakeupMutex)`. -/
  | condWait
  /-- Call of `pthread_cond_timedwait(&ctx->wakeupCond, &ctx->wakeupMutex, &wakeupTime)`. -/
  | condTimedWait
  /-- Log line `RLOG(INFO) << "Filesystem unmounted: "` after the loop. -/
  | logUnmounted
  deriving DecidableEq, Repr

/-- Source: `static bool unmountFS(EncFS_Context *ctx)`.  Returns the result together with
the action performed: with `mountOnDemand` the root is detached and the result is `false`,
otherwise `fuse_unmount` is called and the result is `true`. -/
def unmountFS (mountOnDemand : Bool) : Bool × List Event :=
  if mountOnDemand then (false, [Event.detach]) else (true, [Event.fuseUnmount])

/-- Local state of `idleMonitor`: its two local variables, whether the `while` loop has been
left, and the actions performed so far. -/
structure Monitor where
  idleCycles : Int
  unmountres : Bool
  exited : Bool
  log : List Event
  deriving DecidableEq, Repr

/-- The code after the `while` loop of `idleMonitor`. -/
def idleMonitorExit (s : Monitor) : Monitor :=
  { s with exited := true,
           log := if s.unmountres then s.log else s.log ++ [Event.logUnmounted] }

/-- One pass through the body of the `while (ctx->running)` loop of `idleMonitor`
(the loop condition has been read as true). -/
def idleMonitorBody (timeoutCycles : Int) (mountOnDemand : Bool) (p : Poll) (s : Monitor) :
    Monitor :=
  -- if (usage == 0 && ctx->isMounted()) ++idleCycles; else { ...; idleCycles = 0; }
  let idleCycles : Int :=
    if p.usage = 0 ∧ p.isMounted = true then s.idleCycles + 1 else 0
  let log1 : List Event :=
    if p.usage = 0 ∧ p.isMounted = true then s.log
    else if s.idleCycles ≥ timeoutCycles then s.log ++ [Event.logNoLongerInactive]
    else s.log
  if idleCycles ≥ timeoutCycles then
    if p.openCount = 0 then
      let r := unmountFS mountOnDemand
      if r.1 then
        -- pthread_cond_wait(...); break;
        idleMonitorExit
          { idleCycles := idleCycles, unmountres := true, exited := false,
            log := log1 ++ r.2 ++ [Event.condWait] }
      else
        { idleCycles := idleCycles, unmountres := false, exited := false,
          log := log1 ++ r.2 ++ [Event.condTimedWait] }
    else
      { idleCycles := idleCycles, unmountres := s.unmountres, exited := false,
        log := log1 ++ [Event.logFilesOpened p.openCount, Event.condTimedWait] }
  else
    { idleCycles := idleCycles, unmountres := s.unmountres, exited := false,
      log := log1 ++ [Event.condTimedWait] }

/-- The `while (ctx->running)` loop of `idleMonitor`, driven by the values read at each
pass.  When the list is used up the thread is still inside the loop, blocked in
`pthread_cond_timedwait`. -/
def idleMonitorLoop (timeoutCycles : Int) (mountOnDemand : Bool) :
    List Poll → Monitor → Monitor
  | [], s => s
  | p :: ps, s =>
    if s.exited then s
    else if p.running then
      idleMonitorLoop timeoutCycles mountOnDemand ps
        (idleMonitorBody timeoutCycles mountOnDemand p s)
    else idleMonitorExit s

/-- State of `idleMonitor` on entry to its loop: `int idleCycles = -1; bool unmountres = false;`. -/
def idleMonitorStart : Monitor :=
  { idleCycles := -1, unmountres := false, exited := false, log := [Event.logMounted] }

/-- Source: `static void *idleMonitor(void *_arg)`. -/
def idleMonitor (idleTimeout : Int) (mountOnDemand : Bool) (polls : List Poll) : Monitor :=
  idleMonitorLoop (timeoutCycles idleTimeout) mountOnDemand polls idleMonitorStart

/-- Whether an action is a call of `unmountFS` (either branch). -/
def Event.isUnmount : Event → Bool
  | Event.detach => true
  | Event.fuseUnmount => true
  | _ => false

/-- Number of calls of `unmountFS` in a log. -/
def unmountCalls (log : List Event) : Nat := log.countP Event.isUnmount

/-- A poll that finds the loop running, no operation, no open file and a mounted session. -/
def idlePoll : Poll := { running := true, usage := 0, openCount := 0, isMounted := true }

/-! ## main.cpp: the root after `unmountFS`, a monitor at the threshold -/

/-- Modelled from the spec: `isMounted` and `setRoot` belong to `EncFS_Context`, whose source
is not among the files.  The value of `isMounted()` after a call of `unmountFS`: detaching the
active root (`setRoot(std::shared_ptr<DirNode>())`, on-demand mode) makes it false, and
nothing else in `unmountFS` touches the root. -/
def mountedAfter (mounted detached : Bool) : Bool := mounted && !detached

/-- The locals of the watchdog after six idle polls with `timeoutCycles = 6`: one more idle poll
reaches the threshold. -/
def monitorAtFive : Monitor :=
  idleMonitorLoop 6 false (List.replicate 6 idlePoll) idleMonitorStart

/-! ## compatwin.cpp: condition variables on a manual-reset event -/

/-- Modelled from the spec: the declaration of `pthread_cond_t` is in `pthread.h`, which is
not among the sources.  The fields are the ones `compatwin.cpp` reads and writes; the three
counters are integers (the source copies the generation into an `int`), and `event_` is the
manual-reset event, `true` when signaled.  `waiters_count_lock_` is represented by the
atomicity of the sections it brackets. -/
structure pthread_cond_t where
  waiters_count_ : Int
  release_count_ : Int
  wait_generation_count_ : Int
  event_ : Bool
  deriving DecidableEq, Repr

/-- Source: `pthread_cond_init`: the three counters are zero and the event is created
non-signaled. -/
def pthread_cond_init : pthread_cond_t :=
  { waiters_count_ := 0, release_count_ := 0, wait_generation_count_ := 0, event_ := false }

/-- Source: `pthread_cond_signal`; the whole body is one section under
`waiters_count_lock_`. -/
def pthread_cond_signal (cv : pthread_cond_t) : pthread_cond_t :=
  if cv.waiters_count_ > cv.release_count_ then
    { cv with event_ := true,
              release_count_ := cv.release_count_ + 1,
              wait_generation_count_ := cv.wait_generation_count_ + 1 }
  else cv

/-- Source: `pthread_cond_broadcast`; the whole body is one section under
`waiters_count_lock_`. -/
def pthread_cond_broadcast (cv : pthread_cond_t) : pthread_cond_t :=
  if cv.waiters_count_ > 0 then
    { cv with event_ := true,
              release_count_ := cv.waiters_count_,
              wait_generation_count_ := cv.wait_generation_count_ + 1 }
  else cv

/-- First locked section of `pthread_cond_wait` and `pthread_cond_timedwait`:
`cv->waiters_count_++; int my_generation = cv->wait_generation_count_;`.
Returns the new fields and `my_generation`. -/
def waitEnter (cv : pthread_cond_t) : pthread_cond_t × Int :=
  ({ cv with waiters_count_ := cv.waiters_count_ + 1 }, cv.wait_generation_count_)

/-- Locked section inside the `for (;;)` loop:
`int wait_done = cv->release_count_ > 0 && cv->wait_generation_count_ != my_generation;`. -/
def waitDone (cv : pthread_cond_t) (my_generation : Int) : Bool :=
  decide (cv.release_count_ > 0) && decide (cv.wait_generation_count_ ≠ my_generation)

/-- Last locked section of `pthread_cond_wait` and `pthread_cond_timedwait`:
`cv->waiters_count_--; cv->release_count_--; int last_waiter = cv->release_count_ == 0;`.
Returns the new fields and `last_waiter`. -/
def waitLeave (cv : pthread_cond_t) : pthread_cond_t × Bool :=
  ({ cv with waiters_count_ := cv.waiters_count_ - 1,
             release_count_ := cv.release_count_ - 1 },
   decide (cv.release_count_ - 1 = 0))

/-- Source: `ResetEvent(cv->event_)`. -/
def resetEvent (cv : pthread_cond_t) : pthread_cond_t := { cv with event_ := false }

/-- Where a thread stands with respect to `pthread_cond_wait` / `pthread_cond_timedwait`.
`timed` tells which of the two it called (`pthread_cond_timedwait` with a non-null
`abstime`); `my_generation` is its local variable of that name. -/
inductive Pc where
  /-- Not inside a wait call and has not returned from one. -/
  | idle
  /-- Inside `WaitForSingleObject(cv->event_, INFINITE)`. -/
  | blocked (timed : Bool) (my_generation : Int)
  /-- Past `WaitForSingleObject`, which has returned; `wait_done` not yet evaluated. -/
  | awake (timed : Bool) (my_generation : Int)
  /-- Has left the `for (;;)` loop; about to `EnterCriticalSection(external_mutex)`. -/
  | leaving (timed : Bool) (my_generation : Int)
  /-- Has done the final bookkeeping with `last_waiter` true; about to `ResetEvent`. -/
  | resetting (timed : Bool) (my_generation : Int)
  /-- The call has returned (the thread owns `external_mutex` until it unlocks). -/
  | returned (timed : Bool) (my_generation : Int)
  deriving DecidableEq, Repr

/-- The thread is not inside a wait call. -/
def Pc.outside : Pc → Bool
  | Pc.idle => true
  | Pc.returned _ _ => true
  | _ => false

/-- The thread has returned from a wait call. -/
def Pc.isReturned : Pc → Bool
  | Pc.returned _ _ => true
  | _ => false

/-- One condition variable, the external mutex used with it, and the threads using them. -/
structure World where
  cv : pthread_cond_t
  /-- Owner of `external_mutex`, if any. -/
  mutex : Option Nat
  pc : Nat → Pc

/-- Replace the position of thread `t`. -/
def setPc (pc : Nat → Pc) (t : Nat) (p : Pc) : Nat → Pc :=
  fun u => if u = t then p else pc u

/-- The atomic steps of the threads: each is one section of the source bracketed by
`waiters_count_lock_`, one call on the event, or one operation on `external_mutex`. -/
inductive Action where
  /-- Thread `t`, outside a wait call, does `pthread_mutex_lock(external_mutex)`. -/
  | lock (t : Nat)
  /-- Thread `t`, outside a wait call, does `pthread_mutex_unlock(external_mutex)`. -/
  | unlock (t : Nat)
  /-- Thread `t` calls `pthread_cond_wait`: first locked section, then
  `LeaveCriticalSection(external_mutex)`. -/
  | wait (t : Nat)
  /-- Thread `t` calls `pthread_cond_timedwait` with a non-null `abstime`: same entry. -/
  | timedwait (t : Nat)
  /-- In thread `t`, `WaitForSingleObject(cv->event_, INFINITE)` returns. -/
  | wake (t : Nat)
  /-- Thread `t` evaluates `wait_done`, and in `pthread_cond_timedwait` the test
  `(DWORD)(GetTickCount() - start) > timeout`, whose outcome is `expired`. -/
  | check (t : Nat) (expired : Bool)
  /-- Thread `t` does `EnterCriticalSection(external_mutex)` and the last locked section. -/
  | finish (t : Nat)
  /-- Thread `t`, with `last_waiter` true, does `ResetEvent(cv->event_)` and returns. -/
  | reset (t : Nat)
  /-- Some thread calls `pthread_cond_signal`. -/
  | signal
  /-- Some thread calls `pthread_cond_broadcast`. -/
  | broadcast
  deriving DecidableEq, Repr

/-- Entry of a wait call by thread `t`, which must own `external_mutex`. -/
def stepEnter (w : World) (t : Nat) (timed : Bool) : Option World :=
  if w.mutex = some t ∧ (w.pc t).outside = true then
    some { cv := (waitEnter w.cv).1, mutex := none,
           pc := setPc w.pc t (Pc.blocked timed (waitEnter w.cv).2) }
  else none

/-- One atomic step; `none` when the step is not enabled in `w`. -/
def step (w : World) : Action → Option World
  | Action.lock t =>
    if w.mutex = none ∧ (w.pc t).outside = true then some { w with mutex := some t } else none
  | Action.unlock t =>
    if w.mutex = some t ∧ (w.pc t).outside = true then some { w with mutex := none } else none
  | Action.wait t => stepEnter w t false
  | Action.timedwait t => stepEnter w t true
  | Action.wake t =>
    match w.pc t with
    | Pc.blocked timed g =>
      if w.cv.event_ = true then some { w with pc := setPc w.pc t (Pc.awake timed g) } else none
    | _ => none
  | Action.check t expired =>
    match w.pc t with
    | Pc.awake timed g =>
      if waitDone w.cv g = true then some { w with pc := setPc w.pc t (Pc.leaving timed g) }
      else if timed = true ∧ expired = true then
        some { w with pc := setPc w.pc t (Pc.leaving timed g) }
      else some { w with pc := setPc w.pc t (Pc.blocked timed g) }
    | _ => none
  | Action.finish t =>
    match w.pc t with
    | Pc.leaving timed g =>
      if w.mutex = none then
        some { cv := (waitLeave w.cv).1, mutex := some t,
               pc := setPc w.pc t
                 (if (waitLeave w.cv).2 = true then Pc.resetting timed g
                  else Pc.returned timed g) }
      else none
    | _ => none
  | Action.reset t =>
    match w.pc t with
    | Pc.resetting timed g =>
      some { w with cv := resetEvent w.cv, pc := setPc w.pc t (Pc.returned timed g) }
    | _ => none
  | Action.signal => some { w with cv := pthread_cond_signal w.cv }
  | Action.broadcast => some { w with cv := pthread_cond_broadcast w.cv }

/-- Run a schedule; `none` if some step of it is not enabled when its turn comes. -/
def run (w : World) : List Action → Option World
  | [] => some w
  | a :: as =>
    match step w a with
    | some w1 => run w1 as
    | none => none

/-- A freshly initialised condition variable, a free mutex, no thread waiting. -/
def World.init : World :=
  { cv := pthread_cond_init, mutex := none, pc := fun _ => Pc.idle }

/-- What is observed of a world at finitely many threads: the condition variable, the owner
of the mutex, and the positions of threads `0 .. n-1`. -/
def World.view (n : Nat) (w : World) : pthread_cond_t × Option Nat × List Pc :=
  (w.cv, w.mutex, (List.range n).map w.pc)

/-- Threads 0 and 1 each lock the mutex and call `pthread_cond_wait`. -/
def twoWaiters : List Action :=
  [Action.lock 0, Action.wait 0, Action.lock 1, Action.wait 1]

/-- One `pthread_cond_signal`, after which both waiters wake and evaluate `wait_done` before
either of them reaches its final locked section; then each finishes in turn. -/
def oneSignalRace : List Action :=
  [Action.signal,
   Action.wake 0, Action.check 0 false,
   Action.wake 1, Action.check 1 false,
   Action.finish 0, Action.reset 0, Action.unlock 0,
   Action.finish 1, Action.unlock 1]

/-- Whether a step is a `pthread_cond_signal` or `pthread_cond_broadcast` whose guard holds,
so that it sets the event and starts a new generation. -/
def takesEffect (cv : pthread_cond_t) : Action → Bool
  | Action.signal => decide (cv.waiters_count_ > cv.release_count_)
  | Action.broadcast => decide (cv.waiters_count_ > 0)
  | _ => false

/-- Number of signal and broadcast steps of a schedule that take effect when run from `w`. -/
def effectiveCount (w : World) : List Action → Nat
  | [] => 0
  | a :: as =>
    match step w a with
    | some w1 => (if takesEffect w.cv a = true then 1 else 0) + effectiveCount w1 as
    | none => 0

/-- Thread position of one particular call of `pthread_cond_wait` that recorded generation
`g0`: inside the loop the current generation is at least `g0`, past the loop it is greater. -/
def tracks (g0 gen : Int) : Pc → Prop
  | Pc.blocked false g => g = g0 ∧ g0 ≤ gen
  | Pc.awake false g => g = g0 ∧ g0 ≤ gen
  | Pc.leaving false g => g = g0 ∧ g0 < gen
  | Pc.resetting false g => g = g0 ∧ g0 < gen
  | Pc.returned false g => g = g0 ∧ g0 < gen
  | _ => False

/-- Sum of `f` over the positions of threads `0 .. n-1`. -/
def sumPc (f : Pc → Nat) (pc : Nat → Pc) : Nat → Nat
  | 0 => 0
  | n + 1 => sumPc f pc n + f (pc n)

/-- 1 for a thread that has entered a wait call and not yet done its final locked section. -/
def Pc.pending : Pc → Nat
  | Pc.blocked _ _ => 1
  | Pc.awake _ _ => 1
  | Pc.leaving _ _ => 1
  | _ => 0

/-- 1 for a thread that is about to `ResetEvent`. -/
def Pc.inReset : Pc → Nat
  | Pc.resetting _ _ => 1
  | _ => 0

/-- Upper bound on the number of steps a waiter (and its caller unlocking the mutex) still
takes once it is owed a release. -/
def Pc.weight : Pc → Nat
  | Pc.blocked _ _ => 5
  | Pc.awake _ _ => 4
  | Pc.leaving _ _ => 3
  | Pc.resetting _ _ => 1
  | _ => 0

/-- The thread is past its final locked section. -/
def Pc.isDone : Pc → Bool
  | Pc.resetting _ _ => true
  | Pc.returned _ _ => true
  | _ => false

/-- A waiter of generation at most `g`, somewhere between blocking and having returned. -/
def Pc.waiterOf (g : Int) : Pc → Prop
  | Pc.idle => False
  | Pc.blocked _ g1 => g1 ≤ g
  | Pc.awake _ g1 => g1 ≤ g
  | _ => True

/-- The steps by which waiters make their way out of a wait call, and the unlocking of the
mutex by a thread that has returned. -/
def Action.isWaiterStep : Action → Bool
  | Action.wake _ => true
  | Action.check _ _ => true
  | Action.finish _ => true
  | Action.reset _ => true
  | Action.unlock _ => true
  | _ => false

/-- Threads `0 .. N-1` are blocked in a wait call, each with a recorded generation not above
the current one; no release is owed, the event is clear, the mutex is free, and no other
thread is involved. -/
def NWaiters (N : Nat) (w : World) : Prop :=
  w.cv.waiters_count_ = (N : Int) ∧ w.cv.release_count_ = 0 ∧ w.cv.event_ = false ∧
  w.mutex = none ∧
  (∀ t, t < N → ∃ timed g, g ≤ w.cv.wait_generation_count_ ∧ w.pc t = Pc.blocked timed g) ∧
  (∀ t, N ≤ t → w.pc t = Pc.idle)

/-- Invariant of the worlds met while the `N` waiters of generation at most `g` leave after
one broadcast, `k` steps having been taken. -/
structure Draining (N : Nat) (g : Int) (k : Nat) (w : World) : Prop where
  gen : w.cv.wait_generation_count_ = g + 1
  pcs : ∀ t, t < N → (w.pc t).waiterOf g
  rest : ∀ t, N ≤ t → w.pc t = Pc.idle
  wc : w.cv.waiters_count_ = (sumPc Pc.pending w.pc N : Int)
  rc : w.cv.release_count_ = (sumPc Pc.pending w.pc N : Int)
  ev_on : 0 < sumPc Pc.pending w.pc N → w.cv.event_ = true
  ev_off : sumPc Pc.pending w.pc N = 0 → sumPc Pc.inReset w.pc N = 0 → w.cv.event_ = false
  excl : 0 < sumPc Pc.inReset w.pc N → sumPc Pc.pending w.pc N = 0
  owner : ∀ u, w.mutex = some u → (w.pc u).isDone = true
  fuel : sumPc Pc.weight w.pc N + (if w.mutex = none then 0 else 1) + k ≤ 5 * N

/-- Two threads blocked in `pthread_cond_wait` with recorded generation 0 (the world reached
from `World.init` by `twoWaiters`). -/
def twoBlocked : World :=
  { cv := { waiters_count_ := 2, release_count_ := 0, wait_generation_count_ := 0,
            event_ := false },
    mutex := none,
    pc := fun t => if t < 2 then Pc.blocked false 0 else Pc.idle }

/-- Thread 0 owns the mutex of a freshly initialised condition variable. -/
def lockedByZero : World :=
  { cv := pthread_cond_init, mutex := some 0, pc := fun _ => Pc.idle }

/-- Thread 0 has entered `pthread_cond_wait` from `lockedByZero`. -/
def zeroWaiting : World :=
  { cv := { waiters_count_ := 1, release_count_ := 0, wait_generation_count_ := 0,
            event_ := false },
    mutex := none,
    pc := setPc (fun _ => Pc.idle) 0 (Pc.blocked false 0) }

/-- One signal, then the way out of the waiter. -/
def signalThenLeave : List Action :=
  [Action.signal, Action.wake 0, Action.check 0 false, Action.finish 0, Action.reset 0]

/-- After the race a third thread locks the mutex and calls `pthread_cond_wait`. -/
def thirdWaiter : List Action := [Action.lock 2, Action.wait 2]

/-! ## main.cpp: starting and stopping the idle monitor -/

/-- Source: `main`, after `fuse_main` has returned:
`if (ctx->args->idleTimeout > 0) { ctx->running = false; pthread_mutex_lock(&ctx->wakeupMutex);
pthread_cond_signal(&ctx->wakeupCond); pthread_mutex_unlock(&ctx->wakeupMutex); ... }`.
Returns the new `running` flag and the new state of `wakeupCond`. -/
def mainStopMonitor (idleTimeout : Int) (running : Bool) (wakeupCond : pthread_cond_t) :
    Bool × pthread_cond_t :=
  if idleTimeout > 0 then (false, pthread_cond_signal wakeupCond) else (running, wakeupCond)

/-- The same wake-up as steps of thread `m` in a world: lock, signal, unlock. -/
def mainWake (m : Nat) : List Action :=
  [Action.lock m, Action.signal, Action.unlock m]

/-- One thread blocked in `pthread_cond_timedwait` with recorded generation 0 (the watchdog
between two polls), nothing owed, event clear. -/
def oneBlocked : World :=
  { cv := { waiters_count_ := 1, release_count_ := 0, wait_generation_count_ := 0,
            event_ := false },
    mutex := none,
    pc := fun t => if t < 1 then Pc.blocked true 0 else Pc.idle }

/-! ## The deadline of the wait between two polls -/

/-- The standard C `struct timeval` as `gettimeofday` fills it: seconds and microseconds since
the epoch. -/
structure timeval where
  tv_sec : Int
  tv_usec : Int
  deriving DecidableEq, Repr

/-- The standard C `struct timespec`: seconds and nanoseconds. -/
structure timespec where
  tv_sec : Int
  tv_nsec : Int
  deriving DecidableEq, Repr

/-- Source: `idleMonitor`, the deadline handed to `pthread_cond_timedwait`:
`wakeupTime.tv_sec = currentTime.tv_sec + ActivityCheckInterval;`
`wakeupTime.tv_nsec = currentTime.tv_usec * 1000;`. -/
def idleMonitorWakeupTime (currentTime : timeval) : timespec :=
  { tv_sec := currentTime.tv_sec + ActivityCheckInterval,
    tv_nsec := currentTime.tv_usec * 1000 }

/-- Source: `pthread_cond_timedwait`:
`DWORD timeout = 0; if (abstime) timeout = abstime->tv_sec * 1000 + abstime->tv_nsec / 1000000;`.
The sum is stored in a `DWORD`, that is reduced modulo 2^32. -/
def timedwaitTimeout (abstime : Option timespec) : Int :=
  match abstime with
  | none => 0
  | some a => (a.tv_sec * 1000 + Int.tdiv a.tv_nsec 1000000) % 4294967296

/-- Source: `pthread_cond_timedwait`, the second exit test of the loop:
`abstime && ((DWORD)(GetTickCount() - start)) > timeout`, with `start` the tick count at entry
and `tick` the current one (milliseconds). -/
def timedwaitExpired (abstime : Option timespec) (start tick : Int) : Bool :=
  abstime.isSome && decide ((tick - start) % 4294967296 > timedwaitTimeout abstime)

/-- A current time: 1700000000 seconds after the epoch. -/
def sampleTime : timeval := { tv_sec := 1700000000, tv_usec := 0 }

/-- The thread an action belongs to, if it is tied to one. -/
def Action.thread : Action → Option Nat
  | Action.lock t => some t
  | Action.unlock t => some t
  | Action.wait t => some t
  | Action.timedwait t => some t
  | Action.wake t => some t
  | Action.check t _ => some t
  | Action.finish t => some t
  | Action.reset t => some t
  | Action.signal => none
  | Action.broadcast => none

/-- The same position in a call of `pthread_cond_wait` instead of `pthread_cond_timedwait`. -/
def Pc.untimed : Pc → Pc
  | Pc.idle => Pc.idle
  | Pc.blocked _ g => Pc.blocked false g
  | Pc.awake _ g => Pc.awake false g
  | Pc.leaving _ g => Pc.leaving false g
  | Pc.resetting _ g => Pc.resetting false g
  | Pc.returned _ g => Pc.returned false g

/-- The positions of all threads, with thread `t` read as calling `pthread_cond_wait`. -/
def untimedAt (t : Nat) (pc : Nat → Pc) : Nat → Pc :=
  fun u => if u = t then (pc u).untimed else pc u

/-- The world in which thread `t` calls `pthread_cond_wait` where it called
`pthread_cond_timedwait`; the condition variable and the mutex are the same. -/
def World.asWait (t : Nat) (w : World) : World :=
  { cv := w.cv, mutex := w.mutex, pc := untimedAt t w.pc }

/-- The action with the entry of thread `t` into `pthread_cond_timedwait` replaced by its
entry into `pthread_cond_wait`. -/
def Action.asWait (t : Nat) : Action → Action
  | Action.timedwait u => if u = t then Action.wait u else Action.timedwait u
  | a => a

/-- The action is not a deadline test of thread `t` that finds the deadline passed. -/
def Action.noTimeout (t : Nat) : Action → Bool
  | Action.check u e => !(decide (u = t) && e)
  | _ => true

/-- Thread 0 takes the mutex and calls `pthread_cond_timedwait`; a signal follows and the
thread leaves, its deadline never found passed. -/
def timedRound : List Action :=
  [Action.lock 0, Action.timedwait 0, Action.signal, Action.wake 0, Action.check 0 false,
   Action.finish 0, Action.reset 0]

/-! ## main.cpp: the checks of processArgs on the two directories -/

/-- Source: `static string slashTerminate(const string &src)`: a slash is appended unless the
last character is one.  (For an empty `src` the source indexes before the start of the
string; here the empty string gets the slash.) -/
def slashTerminate (src : List Char) : List Char :=
  if src.getLast? = some '/' then src else src ++ ['/']

/-- Source: `static char *unslashTerminate(char *src)`: a string longer than one character
loses a final backslash or slash. -/
def unslashTerminate (src : List Char) : List Char :=
  if src.length > 1 ∧ (src.getLast? = some '\\' ∨ src.getLast? = some '/') then src.dropLast
  else src

/-- What `processArgs` holds when its `getopt_long` loop has ended: the option values that its
later checks read, and the arguments left over (`argv[optind]` onwards). -/
structure ParsedArgs where
  isDaemon : Bool
  annotate : Bool
  delayMount : Bool
  mountOnDemand : Bool
  passwordProgram : List Char
  rest : List (List Char)
  deriving DecidableEq, Repr

/-- The helpers of `FileUtils` that `processArgs` calls; their sources are not among the
files, so their answers are parameters. -/
structure FileEnv where
  isAbsolutePath : List Char → Bool
  isDirectory : List Char → Bool
  /-- The answer of `userAllowMkdir(promptno, path, 0700)`. -/
  userAllowMkdir : Int → List Char → Bool

/-- Source: `static bool processArgs(int argc, char *argv[], ...)`, from the end of the option
loop to the return: the result of the function. -/
def processArgs (env : FileEnv) (a : ParsedArgs) : Bool :=
  match a.rest with
  | rootArg :: mountArg :: _ =>
    let rootDir := slashTerminate (unslashTerminate rootArg)
    let mountPoint := unslashTerminate mountArg
    if a.isDaemon = true ∧
        (env.isAbsolutePath mountPoint = false ∨ env.isAbsolutePath rootDir = false) then
      false
    else
      -- the raw directory may not be a subdirectory of the mount point.
      let testMountPoint := slashTerminate mountPoint
      let testRootDir := rootDir.take testMountPoint.length
      if testMountPoint = testRootDir then false
      else if a.delayMount = true ∧ a.mountOnDemand = false then false
      else if a.mountOnDemand = true ∧ a.passwordProgram.isEmpty = true then false
      else if env.isDirectory rootDir = false ∧
          env.userAllowMkdir (if a.annotate = true then 1 else 0) rootDir = false then false
      else if mountPoint.length > 2 ∧ env.isDirectory mountPoint = false ∧
          env.userAllowMkdir (if a.annotate = true then 2 else 0) mountPoint = false then false
      else true
  | _ => false

/-- An environment in which every path is absolute and every directory exists. -/
def allThere : FileEnv :=
  { isAbsolutePath := fun _ => true, isDirectory := fun _ => true,
    userAllowMkdir := fun _ _ => true }

/-- The command line `encfs C:\enc\raw C:\enc` with no options. -/
def rawInsideMount : ParsedArgs :=
  { isDaemon := true, annotate := false, delayMount := false, mountOnDemand := false,
    passwordProgram := [],
    rest := ["C:\\enc\\raw".toList, "C:\\enc".toList] }

/-- Thread 0 waits and is signalled; thread 1 then enters `pthread_cond_timedwait`.  Thread 0
leaves and does its final section; before it resets the event thread 1 wakes, finds
`wait_done` false and its deadline passed, and leaves as well; it does its final section
after thread 0 has reset the event and unlocked. -/
def timeoutExit : List Action :=
  [Action.lock 0, Action.wait 0, Action.signal, Action.lock 1, Action.timedwait 1,
   Action.wake 0, Action.check 0 false, Action.finish 0,
   Action.wake 1, Action.check 1 true,
   Action.reset 0, Action.unlock 0, Action.finish 1]

/-- With two threads waiting: a signal releases thread 0, which does its final section
(`last_waiter` true); a second signal comes before thread 0 calls `ResetEvent`. -/
def signalBeforeReset : List Action :=
  [Action.signal, Action.wake 0, Action.check 0 false, Action.finish 0,
   Action.signal, Action.reset 0, Action.unlock 0]

/-! ## compatwin.cpp: truncation of a file -/

/-- Outcome of the two system calls made by `truncate_handle` on its handle: whether
`SetFilePointer` and `SetEndOfFile` succeed. -/
structure FileCalls where
  seekSucceeds : Bool
  endOfFileSucceeds : Bool
  deriving DecidableEq, Repr

/-- Value returned by the system call `SetFilePointer(fd, (LONG)length, &high, FILE_BEGIN)`
with `high = length >> 32`, by the contract of the Win32 call (the call itself is not part
of the sources): when it succeeds, the low-order `DWORD` of the new file pointer, here the
low 32 bits of `length`; when it fails, `INVALID_SET_FILE_POINTER`, that is 0xFFFFFFFF. -/
def SetFilePointer (os : FileCalls) (length : Int) : Int :=
  if os.seekSucceeds then length % 4294967296 else 4294967295

/-- Value returned by the system call `SetEndOfFile(fd)`: nonzero exactly on success. -/
def SetEndOfFile (os : FileCalls) : Bool := os.endOfFileSucceeds

/-- Source: `truncate_handle`:
`if (!SetFilePointer(fd, (LONG)length, &high, FILE_BEGIN) || !SetEndOfFile(fd))`
`{ errno = ...; return -1; } return 0;`.  The first test is on the value returned by
`SetFilePointer` being zero. -/
def truncate_handle (os : FileCalls) (length : Int) : Int :=
  if SetFilePointer os length = 0 || !SetEndOfFile os then -1 else 0

/-- Source: `unix::ftruncate`: `return truncate_handle(h, length);`. -/
def ftruncate (os : FileCalls) (length : Int) : Int := truncate_handle os length

/-- Source: `unix::truncate`: the file is opened with `CreateFileW` (a second attempt
without sharing when the first fails); `opened` tells whether a handle was obtained.  Without
a handle the result is -1, otherwise that of `truncate_handle`. -/
def truncate (opened : Bool) (os : FileCalls) (length : Int) : Int :=
  if !opened then -1 else truncate_handle os length

/-- Both system calls succeed. -/
def callsSucceed : FileCalls := { seekSucceeds := true, endOfFileSucceeds := true }

/-! ## compatwin.cpp: the file time of a `timeval` -/

/-- The Win32 `FILETIME`: two `DWORD` halves of a 64-bit count of 100-nanosecond
intervals. -/
structure FILETIME where
  dwLowDateTime : Int
  dwHighDateTime : Int
  deriving DecidableEq, Repr

/-- Reduction of an integer to the range of a 64-bit `LONGLONG`. -/
def wrapInt64 (x : Int) : Int :=
  (x + 9223372036854775808) % 18446744073709551616 - 9223372036854775808

/-- The Win32 helper `Int32x32To64(a, b)`: `(LONGLONG)(LONG)a * (LONGLONG)(LONG)b`, the
64-bit product of two 32-bit signed values. -/
def Int32x32To64 (a b : Int) : Int := wrapInt32 a * wrapInt32 b

/-- Source: `timevalToFiletime`:
`ll = Int32x32To64(t.tv_sec, 10000000) + 116444736000000000LL + 10u * t.tv_usec;`
`res.dwLowDateTime = (DWORD)ll; res.dwHighDateTime = (DWORD)(ll >> 32);`.
The product `10u * t.tv_usec` is unsigned and 32 bits wide; the sum is a `LONGLONG`; `>>` on
it is the arithmetic shift, the quotient by 2^32 rounded down. -/
def timevalToFiletime (t : timeval) : FILETIME :=
  let ll := wrapInt64 (Int32x32To64 t.tv_sec 10000000 + 116444736000000000 +
              (10 * t.tv_usec) % 4294967296)
  { dwLowDateTime := ll % 4294967296,
    dwHighDateTime := (ll / 4294967296) % 4294967296 }

/-! ## compatwin.cpp: the table of error codes

The names are those of the sources.  Their values are those of the platform headers
(`winerror.h` for the `ERROR_` codes, which the comments of the table repeat, and `errno.h`
of the Microsoft C runtime for the `errno` codes); the headers are not part of the
sources. -/

def ERROR_INVALID_FUNCTION : Int := 1
def ERROR_FILE_NOT_FOUND : Int := 2
def ERROR_PATH_NOT_FOUND : Int := 3
def ERROR_TOO_MANY_OPEN_FILES : Int := 4
def ERROR_ACCESS_DENIED : Int := 5
def ERROR_INVALID_HANDLE : Int := 6
def ERROR_ARENA_TRASHED : Int := 7
def ERROR_NOT_ENOUGH_MEMORY : Int := 8
def ERROR_INVALID_BLOCK : Int := 9
def ERROR_BAD_ENVIRONMENT : Int := 10
def ERROR_BAD_FORMAT : Int := 11
def ERROR_INVALID_ACCESS : Int := 12
def ERROR_INVALID_DATA : Int := 13
def ERROR_INVALID_DRIVE : Int := 15
def ERROR_CURRENT_DIRECTORY : Int := 16
def ERROR_NOT_SAME_DEVICE : Int := 17
def ERROR_NO_MORE_FILES : Int := 18
def ERROR_LOCK_VIOLATION : Int := 33
def ERROR_BAD_NETPATH : Int := 53
def ERROR_NETWORK_ACCESS_DENIED : Int := 65
def ERROR_BAD_NET_NAME : Int := 67
def ERROR_ALREADY_EXISTS : Int := 183
def ERROR_FILE_EXISTS : Int := 80
def ERROR_CANNOT_MAKE : Int := 82
def ERROR_FAIL_I24 : Int := 83
def ERROR_INVALID_PARAMETER : Int := 87
def ERROR_NO_PROC_SLOTS : Int := 89
def ERROR_DRIVE_LOCKED : Int := 108
def ERROR_BROKEN_PIPE : Int := 109
def ERROR_DISK_FULL : Int := 112
def ERROR_INVALID_TARGET_HANDLE : Int := 114
def ERROR_WAIT_NO_CHILDREN : Int := 128
def ERROR_CHILD_NOT_COMPLETE : Int := 129
def ERROR_DIRECT_ACCESS_HANDLE : Int := 130
def ERROR_NEGATIVE_SEEK : Int := 131
def ERROR_SEEK_ON_DEVICE : Int := 132
def ERROR_DIR_NOT_EMPTY : Int := 145
def ERROR_NOT_LOCKED : Int := 158
def ERROR_BAD_PATHNAME : Int := 161
def ERROR_MAX_THRDS_REACHED : Int := 164
def ERROR_LOCK_FAILED : Int := 167
def ERROR_FILENAME_EXCED_RANGE : Int := 206
def ERROR_NESTING_NOT_ALLOWED : Int := 215
def ERROR_NOT_ENOUGH_QUOTA : Int := 1816

def ENOENT : Int := 2
def E2BIG : Int := 7
def ENOEXEC : Int := 8
def EBADF : Int := 9
def ECHILD : Int := 10
def EAGAIN : Int := 11
def ENOMEM : Int := 12
def EACCES : Int := 13
def EEXIST : Int := 17
def EXDEV : Int := 18
def EINVAL : Int := 22
def EMFILE : Int := 24
def ENOSPC : Int := 28
def EPIPE : Int := 32
def ENOTEMPTY : Int := 41

/-- Source: `struct errentry { unsigned long oscode; int errnocode; };`. -/
structure errentry where
  oscode : Int
  errnocode : Int
  deriving DecidableEq, Repr

/-- Source: `static const struct errentry errtable[]`, entry by entry in the order of the
sources.  `ERROR_INVALID_HANDLE` occurs twice, first with `EBADF`, then with `EINVAL`. -/
def errtable : List errentry :=
  [ ⟨ERROR_INVALID_FUNCTION, EINVAL⟩,
    ⟨ERROR_FILE_NOT_FOUND, ENOENT⟩,
    ⟨ERROR_PATH_NOT_FOUND, ENOENT⟩,
    ⟨ERROR_TOO_MANY_OPEN_FILES, EMFILE⟩,
    ⟨ERROR_ACCESS_DENIED, EACCES⟩,
    ⟨ERROR_INVALID_HANDLE, EBADF⟩,
    ⟨ERROR_ARENA_TRASHED, ENOMEM⟩,
    ⟨ERROR_NOT_ENOUGH_MEMORY, ENOMEM⟩,
    ⟨ERROR_INVALID_BLOCK, ENOMEM⟩,
    ⟨ERROR_BAD_ENVIRONMENT, E2BIG⟩,
    ⟨ERROR_BAD_FORMAT, ENOEXEC⟩,
    ⟨ERROR_INVALID_ACCESS, EINVAL⟩,
    ⟨ERROR_INVALID_DATA, EINVAL⟩,
    ⟨ERROR_INVALID_DRIVE, ENOENT⟩,
    ⟨ERROR_CURRENT_DIRECTORY, EACCES⟩,
    ⟨ERROR_NOT_SAME_DEVICE, EXDEV⟩,
    ⟨ERROR_NO_MORE_FILES, ENOENT⟩,
    ⟨ERROR_LOCK_VIOLATION, EACCES⟩,
    ⟨ERROR_BAD_NETPATH, ENOENT⟩,
    ⟨ERROR_NETWORK_ACCESS_DENIED, EACCES⟩,
    ⟨ERROR_BAD_NET_NAME, ENOENT⟩,
    ⟨ERROR_ALREADY_EXISTS, EEXIST⟩,
    ⟨ERROR_FILE_EXISTS, EEXIST⟩,
    ⟨ERROR_CANNOT_MAKE, EACCES⟩,
    ⟨ERROR_FAIL_I24, EACCES⟩,
    ⟨ERROR_INVALID_PARAMETER, EINVAL⟩,
    ⟨ERROR_NO_PROC_SLOTS, EAGAIN⟩,
    ⟨ERROR_DRIVE_LOCKED, EACCES⟩,
    ⟨ERROR_BROKEN_PIPE, EPIPE⟩,
    ⟨ERROR_DISK_FULL, ENOSPC⟩,
    ⟨ERROR_INVALID_TARGET_HANDLE, EBADF⟩,
    ⟨ERROR_INVALID_HANDLE, EINVAL⟩,
    ⟨ERROR_WAIT_NO_CHILDREN, ECHILD⟩,
    ⟨ERROR_CHILD_NOT_COMPLETE, ECHILD⟩,
    ⟨ERROR_DIRECT_ACCESS_HANDLE, EBADF⟩,
    ⟨ERROR_NEGATIVE_SEEK, EINVAL⟩,
    ⟨ERROR_SEEK_ON_DEVICE, EACCES⟩,
    ⟨ERROR_DIR_NOT_EMPTY, ENOTEMPTY⟩,
    ⟨ERROR_NOT_LOCKED, EACCES⟩,
    ⟨ERROR_BAD_PATHNAME, ENOENT⟩,
    ⟨ERROR_MAX_THRDS_REACHED, EAGAIN⟩,
    ⟨ERROR_LOCK_FAILED, EACCES⟩,
    ⟨ERROR_FILENAME_EXCED_RANGE, ENOENT⟩,
    ⟨ERROR_NESTING_NOT_ALLOWED, EAGAIN⟩,
    ⟨ERROR_NOT_ENOUGH_QUOTA, ENOMEM⟩ ]

/-- Source: `win32_error_to_errno`: 0 for 0; otherwise the absolute value is looked up among
the `oscode` fields from the first entry on and the `errnocode` of the first match is
returned, `EINVAL` when there is none. -/
def win32_error_to_errno (win_res : Int) : Int :=
  if win_res = 0 then 0
  else
    let win_res := if win_res < 0 then -win_res else win_res
    match errtable.find? (fun en => en.oscode == win_res) with
    | some en => en.errnocode
    | none => EINVAL

/-- Source: `errno_to_win32_error`: 0 for 0; otherwise the absolute value is looked up among
the `errnocode` fields from the first entry on and the `oscode` of the first match is
returned, `ERROR_INVALID_FUNCTION` when there is none. -/
def errno_to_win32_error (err : Int) : Int :=
  if err = 0 then 0
  else
    let err := if err < 0 then -err else err
    match errtable.find? (fun en => en.errnocode == err) with
    | some en => en.oscode
    | none => ERROR_INVALID_FUNCTION

/-! ## compatwin.cpp: file names for the wide-character system calls -/

/-- The terminator of a C string, the character of code 0. -/
def NUL : Char := Char.ofNat 0

/-- The C call `memcpy(buf + off, xs, ...)` on a buffer of characters: the elements of `buf`
from index `off` on are overwritten by those of `xs`. -/
def memcpy (buf : List Char) (off : Nat) (xs : List Char) : List Char :=
  buf.take off ++ xs ++ buf.drop (off + xs.length)

/-- Source: `utf8_to_wfn`, the loop
`for (wchar_t *p = buf.data() + addSpace; *p; ++p) if (*p == L'/') *p = L'\\';`
on the elements from the pointer on: it stops at the first terminator. -/
def replaceSlashes : List Char → List Char
  | [] => []
  | c :: cs => if c = NUL then c :: cs else (if c = '/' then '\\' else c) :: replaceSlashes cs

/-- The C string found at a pointer: the elements before the first terminator. -/
def cString (xs : List Char) : List Char := xs.takeWhile (fun c => c != NUL)

/-- The C function `tolower` on a character code (in the C locale): the 26 capital letters
are moved to the small ones, every other code is returned as it is. -/
def tolower (c : Nat) : Nat := if 65 ≤ c ∧ c ≤ 90 then c + 32 else c

/-- Source: `utf8_to_wfn`.  The function `utf8_to_wchar_buf(src, res, maxlen)` is declared
in the sources and defined elsewhere; it is a parameter here, giving the wide characters it
stores at `res`.  `buf` is the vector of `len + addSpace` characters, all 0 at first.
`char drive = tolower(buf[addSpace])` keeps the low 8 bits of the result.  The `&&` of the
sources do not read `buf[addSpace + 1]` when the test before fails, which is when that
element may lie outside of the vector; `getD` reads a terminator there.  The value returned
is the string read from the returned pointer. -/
def utf8_to_wfn (utf8_to_wchar_buf : List Char → Nat → List Char) (src : List Char) :
    List Char :=
  let len := src.length + 1
  let addSpace := 6
  let buf := List.replicate (len + addSpace) NUL
  let buf := memcpy buf addSpace (utf8_to_wchar_buf src len)
  let buf := buf.take addSpace ++ replaceSlashes (buf.drop addSpace)
  let drive := tolower (buf.getD addSpace NUL).toNat % 256
  if 'a'.toNat ≤ drive ∧ drive ≤ 'z'.toNat ∧ buf.getD (addSpace + 1) NUL = ':' then
    cString ((memcpy buf (addSpace - 4) ['\\', '\\', '?', '\\']).drop (addSpace - 4))
  else if buf.getD addSpace NUL = '\\' ∧ buf.getD (addSpace + 1) NUL = '\\' then
    cString ((memcpy buf (addSpace - 6) ['\\', '\\', '?', '\\', 'U', 'N', 'C']).drop
      (addSpace - 6))
  else
    cString (buf.drop addSpace)

/-- The decoding of a string of ASCII characters: the characters themselves, then the
terminator, as far as `maxlen` allows. -/
def asciiToWchar (src : List Char) (maxlen : Nat) : List Char := (src ++ [NUL]).take maxlen

/-- The words of the specification: the path with every slash replaced by a backslash. -/
def convertSlashes (p : List Char) : List Char :=
  p.map (fun c => if c = '/' then '\\' else c)

/-- The words of the specification: a drive letter, one of the 26 letters, small or
capital. -/
def isDriveLetter (c : Char) : Bool :=
  decide (('a'.toNat ≤ c.toNat ∧ c.toNat ≤ 'z'.toNat) ∨ ('A'.toNat ≤ c.toNat ∧ c.toNat ≤ 'Z'.toNat))

/-- The words of the specification: the path starts with a drive letter and a colon. -/
def startsWithDrive (p : List Char) : Bool :=
  match p with
  | c :: d :: _ => isDriveLetter c && decide (d = ':')
  | _ => false

/-- The words of the specification: the path starts with two backslashes. -/
def startsWithTwoBackslashes (p : List Char) : Bool :=
  match p with
  | c :: d :: _ => decide (c = '\\') && decide (d = '\\')
  | _ => false

/-- The words of the specification for the result of `utf8_to_wfn`. -/
def utf8_to_wfn_spec (p : List Char) : List Char :=
  if startsWithDrive p then
    ['\\', '\\', '?', '\\'] ++ convertSlashes p
  else if startsWithTwoBackslashes (convertSlashes p) then
    ['\\', '\\', '?', '\\', 'U', 'N', 'C'] ++ (convertSlashes p).tail
  else
    convertSlashes p

/-- The threads that have entered a wait call and not yet done their final locked section
are finitely many and `waiters_count_` is their number. -/
def Counted (w : World) : Prop :=
  ∃ N : Nat, (∀ t, N ≤ t → (w.pc t).pending = 0) ∧
    w.cv.waiters_count_ = (sumPc Pc.pending w.pc N : Int)

/-! # Theorems -/

/-! ## The idle monitor -/

theorem idleMonitorLoop_exited (T : Int) (m : Bool) (ps : List Poll) (s : Monitor)
    (h : s.exited = true) : idleMonitorLoop T m ps s = s := by
  cases ps with
  | nil => rfl
  | cons p ps => simp [idleMonitorLoop, h]

theorem idleMonitorLoop_append (T : Int) (m : Bool) (ps qs : List Poll) (s : Monitor) :
    idleMonitorLoop T m (ps ++ qs) s = idleMonitorLoop T m qs (idleMonitorLoop T m ps s) := by
  induction ps generalizing s with
  | nil => rfl
  | cons p ps ih =>
    by_cases he : s.exited = true
    · simp [idleMonitorLoop, he, idleMonitorLoop_exited]
    · by_cases hr : p.running = true
      · simp [idleMonitorLoop, he, hr, ih]
      · simp [idleMonitorLoop, he, hr, idleMonitorLoop_exited, idleMonitorExit]

theorem eq_replicate_idlePoll (ps : List Poll)
    (h : ∀ p ∈ ps, p.running = true ∧ p.usage = 0 ∧ p.openCount = 0 ∧ p.isMounted = true) :
    ps = List.replicate ps.length idlePoll := by
  apply List.eq_replicate_iff.mpr
  refine ⟨rfl, ?_⟩
  intro p hp
  obtain ⟨h1, h2, h3, h4⟩ := h p hp
  cases p
  simp_all [idlePoll]

theorem idleMonitorBody_idleCycles (T : Int) (m : Bool) (p : Poll) (s : Monitor) :
    (idleMonitorBody T m p s).idleCycles =
      if p.usage = 0 ∧ p.isMounted = true then s.idleCycles + 1 else 0 := by
  unfold idleMonitorBody
  simp only [idleMonitorExit]
  split_ifs <;> rfl

theorem idleMonitorBody_below (T : Int) (m : Bool) (p : Poll) (s : Monitor)
    (hidle : p.usage = 0 ∧ p.isMounted = true) (hlt : s.idleCycles + 1 < T) :
    (idleMonitorBody T m p s).exited = false ∧
      unmountCalls (idleMonitorBody T m p s).log = unmountCalls s.log := by
  have h : ¬ (s.idleCycles + 1 ≥ T) := by omega
  unfold idleMonitorBody
  simp [hidle, h, unmountCalls, Event.isUnmount]

theorem idleMonitorBody_openCount_pos (T : Int) (m : Bool) (p : Poll) (s : Monitor)
    (h : 0 < p.openCount) :
    unmountCalls (idleMonitorBody T m p s).log = unmountCalls s.log := by
  have h0 : ¬ (p.openCount = 0) := by omega
  unfold idleMonitorBody
  simp only [h0, if_false]
  split_ifs <;> simp [unmountCalls, Event.isUnmount]

theorem idleMonitorExit_unmountCalls (s : Monitor) :
    unmountCalls (idleMonitorExit s).log = unmountCalls s.log := by
  unfold idleMonitorExit
  cases s.unmountres <;> simp [unmountCalls, Event.isUnmount]

theorem idleMonitorLoop_idle (T : Int) (m : Bool) (ps : List Poll) (s : Monitor)
    (hs : s.exited = false)
    (hidle : ∀ q ∈ ps, q.running = true ∧ q.usage = 0 ∧ q.isMounted = true)
    (hlen : s.idleCycles + (ps.length : Int) ≤ T) :
    (idleMonitorLoop T m ps s).idleCycles = s.idleCycles + (ps.length : Int) ∧
      (s.idleCycles + (ps.length : Int) < T →
        (idleMonitorLoop T m ps s).exited = false ∧
          unmountCalls (idleMonitorLoop T m ps s).log = unmountCalls s.log) := by
  induction ps generalizing s with
  | nil => simp [idleMonitorLoop, hs]
  | cons p ps ih =>
    obtain ⟨hr, hu, hm⟩ := hidle p (List.mem_cons_self p ps)
    have hrest : ∀ q ∈ ps, q.running = true ∧ q.usage = 0 ∧ q.isMounted = true :=
      fun q hq => hidle q (List.mem_cons_of_mem p hq)
    have hcyc := idleMonitorBody_idleCycles T m p s
    simp only [hu, hm, and_self, if_true] at hcyc
    simp only [List.length_cons, Nat.cast_add, Nat.cast_one] at hlen ⊢
    simp only [idleMonitorLoop, hs, hr, if_true, Bool.false_eq_true, if_false]
    by_cases hreach : s.idleCycles + 1 < T
    · obtain ⟨hex, hcalls⟩ := idleMonitorBody_below T m p s ⟨hu, hm⟩ hreach
      obtain ⟨h1, h2⟩ := ih (idleMonitorBody T m p s) hex hrest (by rw [hcyc]; omega)
      rw [hcyc] at h1 h2
      refine ⟨by rw [h1]; ring, fun hlt => ?_⟩
      obtain ⟨h3, h4⟩ := h2 (by omega)
      exact ⟨h3, by rw [h4, hcalls]⟩
    · have hnil : ps = [] := by
        apply List.eq_nil_of_length_eq_zero
        have : (0 : Int) ≤ (ps.length : Int) := Int.natCast_nonneg _
        omega
      subst hnil
      simp only [idleMonitorLoop, List.length_nil, Nat.cast_zero, zero_add]
      exact ⟨hcyc, fun hlt => absurd hlt hreach⟩

/-- C1, as stated, fails: with `idleTimeout = 1` (so `timeoutCycles = 6`) and six consecutive
polls that all read a running loop, no operation, no open file and a mounted session,
`unmountFS` has not been called: it is not true that the first call comes with the sixth
poll. -/
theorem idleMonitor_no_unmount_on_sixth_poll :
    ¬ (unmountCalls (idleMonitor 1 false (List.replicate 5 idlePoll)).log = 0 ∧
        unmountCalls (idleMonitor 1 false (List.replicate 6 idlePoll)).log = 1) := by
  decide

/-- C1 (amended): with `idleTimeout = 1` the threshold is `timeoutCycles = 6`, and `idleCycles`
starts at `-1`, so under polls that all read a running loop, no operation, no open file and a
mounted session, `unmountFS` is not called during the first six polls and is called for the
first time on the seventh, in either unmount mode.  In full-unmount mode that call is the only
one however many polls follow: the loop has been left. -/
theorem idleMonitor_first_unmount_on_seventh_poll (mountOnDemand : Bool) (ps : List Poll)
    (h : ∀ p ∈ ps, p.running = true ∧ p.usage = 0 ∧ p.openCount = 0 ∧ p.isMounted = true) :
    timeoutCycles 1 = 6 ∧
    (ps.length ≤ 6 → unmountCalls (idleMonitor 1 mountOnDemand ps).log = 0) ∧
    (ps.length = 7 → unmountCalls (idleMonitor 1 mountOnDemand ps).log = 1) ∧
    (7 ≤ ps.length → unmountCalls (idleMonitor 1 false ps).log = 1 ∧
      (idleMonitor 1 false ps).exited = true) := by
  have hps := eq_replicate_idlePoll ps h
  generalize ps.length = n at hps
  subst hps
  refine ⟨by decide, ?_, ?_, ?_⟩
  · intro hn
    interval_cases n <;> cases mountOnDemand <;> decide
  · intro hn
    subst hn
    cases mountOnDemand <;> decide
  · intro hn
    obtain ⟨k, rfl⟩ : ∃ k, n = 7 + k := ⟨n - 7, by omega⟩
    have hsplit : List.replicate (7 + k) idlePoll =
        List.replicate 7 idlePoll ++ List.replicate k idlePoll := by
      rw [List.replicate_add]
    have h7 : (idleMonitorLoop (timeoutCycles 1) false (List.replicate 7 idlePoll)
        idleMonitorStart).exited = true := by decide
    unfold idleMonitor
    rw [hsplit, idleMonitorLoop_append, idleMonitorLoop_exited _ _ _ _ h7]
    constructor
    · decide
    · exact h7

theorem idleMonitor_first_unmount_on_seventh_poll_witness :
    (∀ p ∈ List.replicate 9 idlePoll,
        p.running = true ∧ p.usage = 0 ∧ p.openCount = 0 ∧ p.isMounted = true) ∧
    unmountCalls (idleMonitor 1 false (List.replicate 9 idlePoll)).log = 1 :=
  ⟨by decide,
   ((idleMonitor_first_unmount_on_seventh_poll false (List.replicate 9 idlePoll)
      (by decide)).2.2.2 (by decide)).1⟩

/-- C8: whatever the threshold, the unmount mode and the state of the monitor, a sequence of
polls that each read an open-file count greater than zero adds no call of `unmountFS`; started
from the initial state of the thread the number of calls stays zero, also once `idleCycles` has
passed `timeoutCycles`. -/
theorem idleMonitor_open_files_never_unmount (T : Int) (mountOnDemand : Bool) (s : Monitor)
    (ps : List Poll) (h : ∀ p ∈ ps, 0 < p.openCount) :
    unmountCalls (idleMonitorLoop T mountOnDemand ps s).log = unmountCalls s.log ∧
    ∀ idleTimeout : Int, unmountCalls (idleMonitor idleTimeout mountOnDemand ps).log = 0 := by
  have key : ∀ (T : Int) (ps : List Poll) (s : Monitor), (∀ p ∈ ps, 0 < p.openCount) →
      unmountCalls (idleMonitorLoop T mountOnDemand ps s).log = unmountCalls s.log := by
    intro T ps
    induction ps with
    | nil => intro s _; rfl
    | cons p ps ih =>
      intro s hps
      have hp := hps p (List.mem_cons_self p ps)
      have hrest : ∀ q ∈ ps, 0 < q.openCount := fun q hq => hps q (List.mem_cons_of_mem p hq)
      simp only [idleMonitorLoop]
      split_ifs
      · rfl
      · rw [ih _ hrest, idleMonitorBody_openCount_pos T mountOnDemand p s hp]
      · exact idleMonitorExit_unmountCalls s
  refine ⟨key T ps s h, fun idleTimeout => ?_⟩
  unfold idleMonitor
  rw [key _ ps _ h]
  decide

theorem idleMonitor_open_files_never_unmount_witness :
    (∀ p ∈ List.replicate 10 ({ idlePoll with openCount := 1 } : Poll), 0 < p.openCount) ∧
    (idleMonitor 1 false (List.replicate 10 { idlePoll with openCount := 1 })).idleCycles
      ≥ timeoutCycles 1 ∧
    unmountCalls (idleMonitor 1 false (List.replicate 10 { idlePoll with openCount := 1 })).log
      = 0 :=
  ⟨by decide, by decide,
   (idleMonitor_open_files_never_unmount 6 false idleMonitorStart
      (List.replicate 10 { idlePoll with openCount := 1 }) (by decide)).2 1⟩

/-- C9: for every threshold `T ≥ 1` and every monitor state, a pass of the loop that reads at
least one operation leaves `idleCycles = 0` and stays in the loop; after `n ≤ T` further
consecutive polls that read a running loop, no operation and a mounted session, `idleCycles`
is `n`, so `idleCycles ≥ T` holds exactly when `n = T`; for `n < T` the thread is still in the
loop and has not called `unmountFS`. -/
theorem idleMonitor_activity_resets_idleCycles (T : Int) (hT : 1 ≤ T) (mountOnDemand : Bool)
    (s : Monitor) (p : Poll) (hp : 0 < p.usage) (ps : List Poll)
    (hidle : ∀ q ∈ ps, q.running = true ∧ q.usage = 0 ∧ q.isMounted = true)
    (hlen : (ps.length : Int) ≤ T) :
    (idleMonitorBody T mountOnDemand p s).idleCycles = 0 ∧
    (idleMonitorBody T mountOnDemand p s).exited = false ∧
    (idleMonitorLoop T mountOnDemand ps (idleMonitorBody T mountOnDemand p s)).idleCycles
      = (ps.length : Int) ∧
    ((idleMonitorLoop T mountOnDemand ps (idleMonitorBody T mountOnDemand p s)).idleCycles ≥ T
      ↔ (ps.length : Int) = T) ∧
    ((ps.length : Int) < T →
      (idleMonitorLoop T mountOnDemand ps (idleMonitorBody T mountOnDemand p s)).exited = false ∧
      unmountCalls
        (idleMonitorLoop T mountOnDemand ps (idleMonitorBody T mountOnDemand p s)).log
        = unmountCalls (idleMonitorBody T mountOnDemand p s).log) := by
  have hu : ¬ (p.usage = 0) := by omega
  have h0 : (idleMonitorBody T mountOnDemand p s).idleCycles = 0 := by
    rw [idleMonitorBody_idleCycles]; simp [hu]
  have hex : (idleMonitorBody T mountOnDemand p s).exited = false := by
    have hnot : ¬ ((0 : Int) ≥ T) := by omega
    unfold idleMonitorBody
    simp [hu, hnot]
  obtain ⟨h1, h2⟩ := idleMonitorLoop_idle T mountOnDemand ps _ hex hidle (by rw [h0]; omega)
  rw [h0, zero_add] at h1 h2
  refine ⟨h0, hex, h1, ?_, h2⟩
  rw [h1]
  constructor
  · intro hge; omega
  · intro heq; omega

theorem idleMonitor_activity_resets_idleCycles_witness :
    (idleMonitorLoop 6 false (List.replicate 6 idlePoll)
      (idleMonitorBody 6 false { idlePoll with usage := 1 }
        (idleMonitorLoop 6 false (List.replicate 3 idlePoll) idleMonitorStart))).idleCycles
      ≥ 6 ↔ ((List.replicate 6 idlePoll).length : Int) = 6 :=
  (idleMonitor_activity_resets_idleCycles 6 (by decide) false
    (idleMonitorLoop 6 false (List.replicate 3 idlePoll) idleMonitorStart)
    { idlePoll with usage := 1 } (by decide) (List.replicate 6 idlePoll) (by decide)
    (by decide)).2.2.2.1

/-- C10: for every `idleTimeout = m > 0` with `60 * m` in the range of `int`, `timeoutCycles`
is `60 * m` divided (truncating) by the 10-second check interval, which is `6 * m`; for
`m = 1` it is `6`. -/
theorem timeoutCycles_eq (m : Int) (h0 : 0 < m) (h1 : 60 * m ≤ 2147483647) :
    timeoutCycles m = Int.tdiv (60 * m) ActivityCheckInterval ∧
    timeoutCycles m = 6 * m ∧ timeoutCycles 1 = 6 := by
  have hw : wrapInt32 (60 * m) = 60 * m := by unfold wrapInt32; omega
  have hd : Int.tdiv (60 * m) 10 = 6 * m := by
    rw [Int.tdiv_eq_ediv (by omega) (by omega)]
    omega
  refine ⟨?_, ?_, by decide⟩
  · unfold timeoutCycles; rw [hw]
  · unfold timeoutCycles ActivityCheckInterval; rw [hw, hd]

theorem timeoutCycles_eq_witness :
    (0 : Int) < 5 ∧ timeoutCycles 5 = 6 * 5 :=
  ⟨by decide, (timeoutCycles_eq 5 (by decide) (by decide)).2.1⟩

/-! ## The condition variable -/

theorem setPc_self (pc : Nat → Pc) (t : Nat) (p : Pc) : setPc pc t p t = p := by
  simp [setPc]

theorem setPc_ne (pc : Nat → Pc) (t u : Nat) (p : Pc) (h : u ≠ t) : setPc pc t p u = pc u := by
  simp [setPc, h]

theorem pthread_cond_signal_generation (cv : pthread_cond_t) :
    (pthread_cond_signal cv).wait_generation_count_ =
      cv.wait_generation_count_ + (if takesEffect cv Action.signal = true then 1 else 0) := by
  unfold pthread_cond_signal takesEffect
  split_ifs <;> simp_all
  omega

theorem pthread_cond_broadcast_generation (cv : pthread_cond_t) :
    (pthread_cond_broadcast cv).wait_generation_count_ =
      cv.wait_generation_count_ + (if takesEffect cv Action.broadcast = true then 1 else 0) := by
  unfold pthread_cond_broadcast takesEffect
  split_ifs <;> simp_all
  omega

theorem step_generation (w w1 : World) (a : Action) (h : step w a = some w1) :
    w1.cv.wait_generation_count_ =
      w.cv.wait_generation_count_ + (if takesEffect w.cv a = true then 1 else 0) := by
  cases a with
  | lock t =>
    simp only [step] at h
    split_ifs at h
    cases h
    simp [takesEffect]
  | unlock t =>
    simp only [step] at h
    split_ifs at h
    cases h
    simp [takesEffect]
  | wait t =>
    simp only [step, stepEnter] at h
    split_ifs at h
    cases h
    simp [takesEffect, waitEnter]
  | timedwait t =>
    simp only [step, stepEnter] at h
    split_ifs at h
    cases h
    simp [takesEffect, waitEnter]
  | wake t =>
    simp only [step] at h
    split at h
    · split_ifs at h
      cases h
      simp [takesEffect]
    · cases h
  | check t e =>
    simp only [step] at h
    split at h
    · split_ifs at h <;> cases h <;> simp [takesEffect]
    · cases h
  | finish t =>
    simp only [step] at h
    split at h
    · split_ifs at h <;> cases h <;> simp [takesEffect, waitLeave]
    · cases h
  | reset t =>
    simp only [step] at h
    split at h
    · cases h
      simp [takesEffect, resetEvent]
    · cases h
  | signal =>
    simp only [step] at h
    cases h
    exact pthread_cond_signal_generation w.cv
  | broadcast =>
    simp only [step] at h
    cases h
    exact pthread_cond_broadcast_generation w.cv

theorem run_generation (as : List Action) (w w1 : World) (h : run w as = some w1) :
    w1.cv.wait_generation_count_ = w.cv.wait_generation_count_ + (effectiveCount w as : Int) := by
  induction as generalizing w with
  | nil =>
    simp only [run] at h
    cases h
    simp [effectiveCount]
  | cons a as ih =>
    simp only [run] at h
    cases hs : step w a with
    | none => rw [hs] at h; cases h
    | some w2 =>
      rw [hs] at h
      have h1 := step_generation w w2 a hs
      have h2 := ih w2 h
      simp only [effectiveCount, hs]
      rw [h2, h1]
      push_cast
      split_ifs <;> ring

theorem tracks_mono (g0 gen gen1 : Int) (p : Pc) (h : gen ≤ gen1) (ht : tracks g0 gen p) :
    tracks g0 gen1 p := by
  cases p with
  | idle => exact ht
  | blocked timed g => cases timed <;> simp [tracks] at ht ⊢ <;> omega
  | awake timed g => cases timed <;> simp [tracks] at ht ⊢ <;> omega
  | leaving timed g => cases timed <;> simp [tracks] at ht ⊢ <;> omega
  | resetting timed g => cases timed <;> simp [tracks] at ht ⊢ <;> omega
  | returned timed g => cases timed <;> simp [tracks] at ht ⊢ <;> omega

theorem step_tracks (g0 : Int) (t : Nat) (w w1 : World) (a : Action)
    (h : step w a = some w1) (hw : a ≠ Action.wait t) (htw : a ≠ Action.timedwait t)
    (ht : tracks g0 w.cv.wait_generation_count_ (w.pc t)) :
    tracks g0 w1.cv.wait_generation_count_ (w1.pc t) := by
  cases a with
  | lock u =>
    simp only [step] at h
    split_ifs at h
    cases h
    exact ht
  | unlock u =>
    simp only [step] at h
    split_ifs at h
    cases h
    exact ht
  | wait u =>
    have hu : t ≠ u := fun e => hw (by rw [e])
    simp only [step, stepEnter] at h
    split_ifs at h
    cases h
    simpa [setPc, hu, waitEnter] using ht
  | timedwait u =>
    have hu : t ≠ u := fun e => htw (by rw [e])
    simp only [step, stepEnter] at h
    split_ifs at h
    cases h
    simpa [setPc, hu, waitEnter] using ht
  | wake u =>
    simp only [step] at h
    split at h
    · rename_i timed g hpc
      split_ifs at h
      cases h
      by_cases hu : t = u
      · subst hu
        rw [hpc] at ht
        cases timed <;> simp [setPc, tracks] at ht ⊢ <;> omega
      · simpa [setPc, hu] using ht
    · cases h
  | check u e =>
    simp only [step] at h
    split at h
    · rename_i timed g hpc
      by_cases hu : t = u
      · subst hu
        rw [hpc] at ht
        cases timed
        · simp only [tracks] at ht
          split_ifs at h with hd hx
          · cases h
            simp only [waitDone, Bool.and_eq_true, decide_eq_true_eq] at hd
            simp only [setPc, if_true, tracks]
            omega
          · simp at hx
          · cases h
            simp only [setPc, if_true, tracks]
            omega
        · simp [tracks] at ht
      · split_ifs at h <;> cases h <;> simpa [setPc, hu] using ht
    · cases h
  | finish u =>
    simp only [step] at h
    split at h
    · rename_i timed g hpc
      by_cases hm : w.mutex = none
      · rw [if_pos hm] at h
        cases h
        by_cases hu : t = u
        · subst hu
          rw [hpc] at ht
          cases timed
          · simp only [tracks] at ht
            simp only [setPc, if_true, waitLeave]
            split_ifs <;> simp only [tracks] <;> omega
          · simp [tracks] at ht
        · simpa [setPc, hu, waitLeave] using ht
      · rw [if_neg hm] at h
        cases h
    · cases h
  | reset u =>
    simp only [step] at h
    split at h
    · rename_i timed g hpc
      cases h
      by_cases hu : t = u
      · subst hu
        rw [hpc] at ht
        cases timed <;> simp [setPc, tracks, resetEvent] at ht ⊢ <;> omega
      · simpa [setPc, hu, resetEvent] using ht
    · cases h
  | signal =>
    have hg := step_generation w w1 Action.signal h
    simp only [step] at h
    cases h
    refine tracks_mono g0 _ _ _ ?_ ht
    rw [hg]
    split_ifs <;> omega
  | broadcast =>
    have hg := step_generation w w1 Action.broadcast h
    simp only [step] at h
    cases h
    refine tracks_mono g0 _ _ _ ?_ ht
    rw [hg]
    split_ifs <;> omega

theorem run_tracks (g0 : Int) (t : Nat) (as : List Action) (w w1 : World)
    (h : run w as = some w1)
    (has : ∀ a ∈ as, a ≠ Action.wait t ∧ a ≠ Action.timedwait t)
    (ht : tracks g0 w.cv.wait_generation_count_ (w.pc t)) :
    tracks g0 w1.cv.wait_generation_count_ (w1.pc t) := by
  induction as generalizing w with
  | nil =>
    simp only [run] at h
    cases h
    exact ht
  | cons a as ih =>
    simp only [run] at h
    cases hs : step w a with
    | none => rw [hs] at h; cases h
    | some w2 =>
      rw [hs] at h
      obtain ⟨h1, h2⟩ := has a (List.mem_cons_self a as)
      exact ih w2 h (fun b hb => has b (List.mem_cons_of_mem a hb))
        (step_tracks g0 t w w2 a hs h1 h2 ht)

/-- C6: take any world and a thread `t` that enters `pthread_cond_wait` there, and any
schedule of steps of any threads (wait and timed-wait entries and exits, signals, broadcasts,
mutex operations) in which `t` does not start another wait.  If at the end `t` has returned
from the call, then the generation it recorded on entry is the one current at its entry, the
current generation is greater, and at least one `pthread_cond_signal` or
`pthread_cond_broadcast` step of the schedule took effect after the entry. -/
theorem pthread_cond_wait_returns_after_signal (w0 w1 w2 : World) (t : Nat)
    (post : List Action) (g : Int)
    (hentry : step w0 (Action.wait t) = some w1)
    (hpost : ∀ a ∈ post, a ≠ Action.wait t ∧ a ≠ Action.timedwait t)
    (hrun : run w1 post = some w2)
    (hret : w2.pc t = Pc.returned false g) :
    g = w0.cv.wait_generation_count_ ∧
    g < w2.cv.wait_generation_count_ ∧
    0 < effectiveCount w1 post := by
  have h1 : tracks w0.cv.wait_generation_count_ w1.cv.wait_generation_count_ (w1.pc t) := by
    simp only [step, stepEnter] at hentry
    split_ifs at hentry
    cases hentry
    simp [setPc, tracks, waitEnter]
  have h2 := run_tracks _ t post w1 w2 hrun hpost h1
  rw [hret] at h2
  simp only [tracks] at h2
  have h3 := run_generation post w1 w2 hrun
  have h4 : w1.cv.wait_generation_count_ = w0.cv.wait_generation_count_ := by
    simp only [step, stepEnter] at hentry
    split_ifs at hentry
    cases hentry
    simp [waitEnter]
  refine ⟨h2.1, by omega, ?_⟩
  have : (0 : Int) < (effectiveCount w1 post : Int) := by omega
  exact_mod_cast this

theorem sumPc_setPc (f : Pc → Nat) (pc : Nat → Pc) (t : Nat) (p : Pc) (n : Nat) (h : t < n) :
    sumPc f (setPc pc t p) n + f (pc t) = sumPc f pc n + f p := by
  induction n with
  | zero => omega
  | succ n ih =>
    simp only [sumPc]
    by_cases ht : t = n
    · subst ht
      have hlow : ∀ m, m ≤ t → sumPc f (setPc pc t p) m = sumPc f pc m := by
        intro m hm
        induction m with
        | zero => rfl
        | succ m ihm =>
          simp only [sumPc]
          rw [ihm (by omega), setPc_ne pc t m p (by omega)]
      rw [hlow t (le_refl t), setPc_self]
      omega
    · have := ih (by omega)
      rw [setPc_ne pc t n p (fun e => ht e.symm)]
      omega

theorem sumPc_le (f : Pc → Nat) (pc : Nat → Pc) (t n : Nat) (h : t < n) :
    f (pc t) ≤ sumPc f pc n := by
  induction n with
  | zero => omega
  | succ n ih =>
    simp only [sumPc]
    by_cases ht : t = n
    · subst ht; omega
    · have := ih (by omega); omega

theorem sumPc_const (f : Pc → Nat) (pc : Nat → Pc) (c n : Nat)
    (h : ∀ t, t < n → f (pc t) = c) : sumPc f pc n = c * n := by
  induction n with
  | zero => simp [sumPc]
  | succ n ih =>
    simp only [sumPc]
    rw [ih (fun t ht => h t (by omega)), h n (by omega)]
    ring

theorem run_append (w : World) (as bs : List Action) :
    run w (as ++ bs) = (run w as).bind (fun w1 => run w1 bs) := by
  induction as generalizing w with
  | nil => rfl
  | cons a as ih =>
    simp only [List.cons_append, run]
    cases step w a with
    | none => rfl
    | some w1 => exact ih w1

theorem waiterOf_setPc (g : Int) (N : Nat) (pc : Nat → Pc) (t : Nat) (p : Pc)
    (h : ∀ u, u < N → (pc u).waiterOf g) (hp : p.waiterOf g) :
    ∀ u, u < N → (setPc pc t p u).waiterOf g := by
  intro u hu
  by_cases e : u = t
  · subst e; rw [setPc_self]; exact hp
  · rw [setPc_ne pc t u p e]; exact h u hu

theorem idle_setPc (N : Nat) (pc : Nat → Pc) (t : Nat) (p : Pc)
    (h : ∀ u, N ≤ u → pc u = Pc.idle) (ht : t < N) :
    ∀ u, N ≤ u → setPc pc t p u = Pc.idle := by
  intro u hu
  rw [setPc_ne pc t u p (by omega)]
  exact h u hu

theorem isDone_setPc (m : Option Nat) (pc : Nat → Pc) (t : Nat) (p : Pc)
    (h : ∀ u, m = some u → (pc u).isDone = true) (hp : p.isDone = true ∨ m ≠ some t) :
    ∀ u, m = some u → (setPc pc t p u).isDone = true := by
  intro u hu
  by_cases e : u = t
  · subst e
    rw [setPc_self]
    rcases hp with hp | hp
    · exact hp
    · exact absurd hu hp
  · rw [setPc_ne pc t u p e]; exact h u hu

theorem draining_lt_of_ne_idle {N : Nat} {g : Int} {k : Nat} {w : World}
    (h : Draining N g k w) (t : Nat) (hp : w.pc t ≠ Pc.idle) : t < N := by
  by_contra hlt
  exact hp (h.rest t (by omega))

theorem draining_intro (N : Nat) (g : Int) (k : Nat) (cv : pthread_cond_t) (m : Option Nat)
    (pc : Nat → Pc)
    (gen : cv.wait_generation_count_ = g + 1)
    (pcs : ∀ t, t < N → (pc t).waiterOf g)
    (rest : ∀ t, N ≤ t → pc t = Pc.idle)
    (wc : cv.waiters_count_ = (sumPc Pc.pending pc N : Int))
    (rc : cv.release_count_ = (sumPc Pc.pending pc N : Int))
    (ev_on : 0 < sumPc Pc.pending pc N → cv.event_ = true)
    (ev_off : sumPc Pc.pending pc N = 0 → sumPc Pc.inReset pc N = 0 → cv.event_ = false)
    (excl : 0 < sumPc Pc.inReset pc N → sumPc Pc.pending pc N = 0)
    (owner : ∀ u, m = some u → (pc u).isDone = true)
    (fuel : sumPc Pc.weight pc N + (if m = none then 0 else 1) + k ≤ 5 * N) :
    Draining N g k { cv := cv, mutex := m, pc := pc } :=
  { gen := gen, pcs := pcs, rest := rest, wc := wc, rc := rc, ev_on := ev_on,
    ev_off := ev_off, excl := excl, owner := owner, fuel := fuel }

theorem draining_step {N : Nat} {g : Int} {k : Nat} {w w1 : World} {a : Action}
    (h : Draining N g k w) (ha : a.isWaiterStep = true) (hs : step w a = some w1) :
    Draining N g (k + 1) w1 := by
  have hfuel := h.fuel
  have hwc := h.wc
  have hrc := h.rc
  have hexcl := h.excl
  have hon := h.ev_on
  have hoff := h.ev_off
  cases a with
  | lock u => simp [Action.isWaiterStep] at ha
  | wait u => simp [Action.isWaiterStep] at ha
  | timedwait u => simp [Action.isWaiterStep] at ha
  | signal => simp [Action.isWaiterStep] at ha
  | broadcast => simp [Action.isWaiterStep] at ha
  | unlock u =>
    simp only [step] at hs
    split_ifs at hs with hc
    cases hs
    have hm : ¬ (w.mutex = none) := by rw [hc.1]; simp
    rw [if_neg hm] at hfuel
    exact draining_intro N g (k + 1) _ _ _ h.gen h.pcs h.rest h.wc h.rc h.ev_on h.ev_off h.excl
      (by intro v hv; cases hv) (by simp only [if_true]; omega)
  | wake t =>
    simp only [step] at hs
    split at hs
    · rename_i timed g1 hpc
      split_ifs at hs with hev
      cases hs
      have ht : t < N := draining_lt_of_ne_idle h t (by rw [hpc]; simp)
      have hle := sumPc_le Pc.pending w.pc t N ht
      rw [hpc] at hle
      simp only [Pc.pending] at hle
      have hP := sumPc_setPc Pc.pending w.pc t (Pc.awake timed g1) N ht
      have hR := sumPc_setPc Pc.inReset w.pc t (Pc.awake timed g1) N ht
      have hW := sumPc_setPc Pc.weight w.pc t (Pc.awake timed g1) N ht
      rw [hpc] at hP hR hW
      simp only [Pc.pending, Pc.inReset, Pc.weight] at hP hR hW
      have hwo := h.pcs t ht
      rw [hpc] at hwo
      have hnot : w.mutex ≠ some t := by
        intro hm
        have := h.owner t hm
        rw [hpc] at this
        simp [Pc.isDone] at this
      exact draining_intro N g (k + 1) _ _ _ h.gen
        (waiterOf_setPc g N w.pc t _ h.pcs hwo)
        (idle_setPc N w.pc t _ h.rest ht)
        (by omega) (by omega) (fun _ => hev)
        (by intro h0; omega)
        (by intro h0; have := hexcl (by omega); omega)
        (isDone_setPc w.mutex w.pc t _ h.owner (Or.inr hnot))
        (by omega)
    · cases hs
  | check t e =>
    simp only [step] at hs
    split at hs
    · rename_i timed g1 hpc
      have ht : t < N := draining_lt_of_ne_idle h t (by rw [hpc]; simp)
      have hle := sumPc_le Pc.pending w.pc t N ht
      rw [hpc] at hle
      simp only [Pc.pending] at hle
      have hwo := h.pcs t ht
      rw [hpc] at hwo
      simp only [Pc.waiterOf] at hwo
      have hdone : waitDone w.cv g1 = true := by
        simp only [waitDone, Bool.and_eq_true, decide_eq_true_eq]
        have := h.gen
        omega
      rw [if_pos hdone] at hs
      cases hs
      have hP := sumPc_setPc Pc.pending w.pc t (Pc.leaving timed g1) N ht
      have hR := sumPc_setPc Pc.inReset w.pc t (Pc.leaving timed g1) N ht
      have hW := sumPc_setPc Pc.weight w.pc t (Pc.leaving timed g1) N ht
      rw [hpc] at hP hR hW
      simp only [Pc.pending, Pc.inReset, Pc.weight] at hP hR hW
      have hnot : w.mutex ≠ some t := by
        intro hm
        have := h.owner t hm
        rw [hpc] at this
        simp [Pc.isDone] at this
      exact draining_intro N g (k + 1) _ _ _ h.gen
        (waiterOf_setPc g N w.pc t _ h.pcs (by simp [Pc.waiterOf]))
        (idle_setPc N w.pc t _ h.rest ht)
        (by omega) (by omega) (fun _ => hon (by omega))
        (by intro h0; omega)
        (by intro h0; have := hexcl (by omega); omega)
        (isDone_setPc w.mutex w.pc t _ h.owner (Or.inr hnot))
        (by omega)
    · cases hs
  | finish t =>
    simp only [step] at hs
    split at hs
    · rename_i timed g1 hpc
      by_cases hm : w.mutex = none
      · rw [if_pos hm] at hs
        rw [if_pos hm] at hfuel
        cases hs
        have ht : t < N := draining_lt_of_ne_idle h t (by rw [hpc]; simp)
        have hle := sumPc_le Pc.pending w.pc t N ht
        rw [hpc] at hle
        simp only [Pc.pending] at hle
        have hev := hon (by omega)
        have hown : ∀ (p : Pc), p.isDone = true →
            ∀ u, some t = some u → (setPc w.pc t p u).isDone = true := by
          intro p hp u hu
          cases hu
          rw [setPc_self]
          exact hp
        by_cases hlast : (waitLeave w.cv).2 = true
        · simp only [hlast, if_true]
          have hP := sumPc_setPc Pc.pending w.pc t (Pc.resetting timed g1) N ht
          have hR := sumPc_setPc Pc.inReset w.pc t (Pc.resetting timed g1) N ht
          have hW := sumPc_setPc Pc.weight w.pc t (Pc.resetting timed g1) N ht
          rw [hpc] at hP hR hW
          simp only [Pc.pending, Pc.inReset, Pc.weight] at hP hR hW
          simp only [waitLeave, decide_eq_true_eq] at hlast
          exact draining_intro N g (k + 1) _ _ _ h.gen
            (waiterOf_setPc g N w.pc t _ h.pcs (by simp [Pc.waiterOf]))
            (idle_setPc N w.pc t _ h.rest ht)
            (by show w.cv.waiters_count_ - 1 = _; omega)
            (by show w.cv.release_count_ - 1 = _; omega)
            (by intro h0; omega)
            (by intro h0 h1; omega)
            (by intro h0; omega)
            (hown _ (by simp [Pc.isDone]))
            (by simp only [reduceCtorEq, if_false]; omega)
        · simp only [hlast, if_false, Bool.false_eq_true]
          have hP := sumPc_setPc Pc.pending w.pc t (Pc.returned timed g1) N ht
          have hR := sumPc_setPc Pc.inReset w.pc t (Pc.returned timed g1) N ht
          have hW := sumPc_setPc Pc.weight w.pc t (Pc.returned timed g1) N ht
          rw [hpc] at hP hR hW
          simp only [Pc.pending, Pc.inReset, Pc.weight] at hP hR hW
          simp only [waitLeave, decide_eq_true_eq] at hlast
          exact draining_intro N g (k + 1) _ _ _ h.gen
            (waiterOf_setPc g N w.pc t _ h.pcs (by simp [Pc.waiterOf]))
            (idle_setPc N w.pc t _ h.rest ht)
            (by show w.cv.waiters_count_ - 1 = _; omega)
            (by show w.cv.release_count_ - 1 = _; omega)
            (fun _ => hev)
            (by intro h0 h1; omega)
            (by intro h0; have := hexcl (by omega); omega)
            (hown _ (by simp [Pc.isDone]))
            (by simp only [reduceCtorEq, if_false]; omega)
      · rw [if_neg hm] at hs
        cases hs
    · cases hs
  | reset t =>
    simp only [step] at hs
    split at hs
    · rename_i timed g1 hpc
      cases hs
      have ht : t < N := draining_lt_of_ne_idle h t (by rw [hpc]; simp)
      have hle := sumPc_le Pc.inReset w.pc t N ht
      rw [hpc] at hle
      simp only [Pc.inReset] at hle
      have hP := sumPc_setPc Pc.pending w.pc t (Pc.returned timed g1) N ht
      have hR := sumPc_setPc Pc.inReset w.pc t (Pc.returned timed g1) N ht
      have hW := sumPc_setPc Pc.weight w.pc t (Pc.returned timed g1) N ht
      rw [hpc] at hP hR hW
      simp only [Pc.pending, Pc.inReset, Pc.weight] at hP hR hW
      have hp0 := hexcl (by omega)
      exact draining_intro N g (k + 1) _ _ _ h.gen
        (waiterOf_setPc g N w.pc t _ h.pcs (by simp [Pc.waiterOf]))
        (idle_setPc N w.pc t _ h.rest ht)
        (by show w.cv.waiters_count_ = _; omega)
        (by show w.cv.release_count_ = _; omega)
        (by intro h0; omega)
        (fun _ _ => rfl)
        (by intro h0; omega)
        (isDone_setPc w.mutex w.pc t _ h.owner (Or.inl (by simp [Pc.isDone])))
        (by omega)
    · cases hs

theorem draining_init {N : Nat} {w w0 : World} (hN : 1 ≤ N) (hw : NWaiters N w)
    (hs : step w Action.broadcast = some w0) :
    Draining N w.cv.wait_generation_count_ 0 w0 := by
  obtain ⟨hwc, hrc, hev, hm, hpcs, hrest⟩ := hw
  simp only [step] at hs
  cases hs
  have hpos : w.cv.waiters_count_ > 0 := by omega
  have hP : sumPc Pc.pending w.pc N = 1 * N := by
    apply sumPc_const
    intro t ht
    obtain ⟨timed, g, _, hpc⟩ := hpcs t ht
    rw [hpc]; rfl
  have hR : sumPc Pc.inReset w.pc N = 0 * N := by
    apply sumPc_const
    intro t ht
    obtain ⟨timed, g, _, hpc⟩ := hpcs t ht
    rw [hpc]; rfl
  have hW : sumPc Pc.weight w.pc N = 5 * N := by
    apply sumPc_const
    intro t ht
    obtain ⟨timed, g, _, hpc⟩ := hpcs t ht
    rw [hpc]; rfl
  refine draining_intro N _ 0 _ _ _ ?_ ?_ hrest ?_ ?_ ?_ ?_ ?_ ?_ ?_
  · simp [pthread_cond_broadcast, hpos]
  · intro t ht
    obtain ⟨timed, g, hg, hpc⟩ := hpcs t ht
    rw [hpc]
    exact hg
  · simp only [pthread_cond_broadcast, hpos, if_true]
    omega
  · simp only [pthread_cond_broadcast, hpos, if_true]
    omega
  · intro _
    simp [pthread_cond_broadcast, hpos]
  · intro h0
    omega
  · intro h0
    omega
  · intro u hu
    rw [hm] at hu
    cases hu
  · rw [if_pos hm]
    omega

theorem draining_run {N : Nat} {g : Int} (sched : List Action) {k : Nat} {w w1 : World}
    (h : Draining N g k w) (hsched : ∀ a ∈ sched, a.isWaiterStep = true)
    (hrun : run w sched = some w1) : Draining N g (k + sched.length) w1 := by
  induction sched generalizing k w with
  | nil =>
    simp only [run] at hrun
    cases hrun
    exact h
  | cons a as ih =>
    simp only [run] at hrun
    cases hs : step w a with
    | none => rw [hs] at hrun; cases hrun
    | some w2 =>
      rw [hs] at hrun
      have h2 := draining_step h (hsched a (List.mem_cons_self a as)) hs
      have h3 := ih h2 (fun b hb => hsched b (List.mem_cons_of_mem a hb)) hrun
      have e : k + (a :: as).length = k + 1 + as.length := by
        simp only [List.length_cons]; omega
      rw [e]
      exact h3

theorem draining_all_returned {N : Nat} {g : Int} {k : Nat} {w : World}
    (h : Draining N g k w) (hall : ∀ t, t < N → (w.pc t).isReturned = true) :
    w.cv.waiters_count_ = 0 ∧ w.cv.release_count_ = 0 ∧ w.cv.event_ = false := by
  have hP : sumPc Pc.pending w.pc N = 0 * N := by
    apply sumPc_const
    intro t ht
    have := hall t ht
    cases hpc : w.pc t <;> rw [hpc] at this <;> simp_all [Pc.isReturned, Pc.pending]
  have hR : sumPc Pc.inReset w.pc N = 0 * N := by
    apply sumPc_const
    intro t ht
    have := hall t ht
    cases hpc : w.pc t <;> rw [hpc] at this <;> simp_all [Pc.isReturned, Pc.inReset]
  have hwc := h.wc
  have hrc := h.rc
  refine ⟨by omega, by omega, h.ev_off (by omega) (by omega)⟩

theorem draining_progress {N : Nat} {g : Int} {k : Nat} {w : World}
    (h : Draining N g k w) (t : Nat) (ht : t < N) (hnot : (w.pc t).isReturned = false) :
    ∃ a, a.isWaiterStep = true ∧ (step w a).isSome = true := by
  have hwo := h.pcs t ht
  cases hpc : w.pc t with
  | idle => rw [hpc] at hwo; exact hwo.elim
  | returned timed g1 => rw [hpc] at hnot; simp [Pc.isReturned] at hnot
  | blocked timed g1 =>
    have hle := sumPc_le Pc.pending w.pc t N ht
    rw [hpc] at hle
    simp only [Pc.pending] at hle
    have hev := h.ev_on (by omega)
    exact ⟨Action.wake t, rfl, by simp [step, hpc, hev]⟩
  | awake timed g1 =>
    refine ⟨Action.check t false, rfl, ?_⟩
    simp only [step, hpc]
    split_ifs <;> rfl
  | resetting timed g1 =>
    exact ⟨Action.reset t, rfl, by simp [step, hpc]⟩
  | leaving timed g1 =>
    cases hm : w.mutex with
    | none => exact ⟨Action.finish t, rfl, by simp [step, hpc, hm]⟩
    | some u =>
      have hd := h.owner u hm
      cases hu : w.pc u with
      | idle => rw [hu] at hd; simp [Pc.isDone] at hd
      | blocked _ _ => rw [hu] at hd; simp [Pc.isDone] at hd
      | awake _ _ => rw [hu] at hd; simp [Pc.isDone] at hd
      | leaving _ _ => rw [hu] at hd; simp [Pc.isDone] at hd
      | resetting timed2 g2 => exact ⟨Action.reset u, rfl, by simp [step, hu]⟩
      | returned timed2 g2 =>
        exact ⟨Action.unlock u, rfl, by simp [step, hu, hm, Pc.outside]⟩

theorem draining_finishes {N : Nat} {g : Int} (n : Nat) :
    ∀ (k : Nat) (w : World), Draining N g k w → 5 * N - k ≤ n →
      ∃ (sched : List Action) (w1 : World), (∀ a ∈ sched, a.isWaiterStep = true) ∧
        run w sched = some w1 ∧ ∀ t, t < N → (w1.pc t).isReturned = true := by
  induction n with
  | zero =>
    intro k w h hk
    by_cases hall : ∀ t, t < N → (w.pc t).isReturned = true
    · exact ⟨[], w, by simp, rfl, hall⟩
    · exfalso
      push_neg at hall
      obtain ⟨t, ht, hnr⟩ := hall
      obtain ⟨a, ha, hsome⟩ := draining_progress h t ht (by simpa using hnr)
      obtain ⟨w2, hs⟩ := Option.isSome_iff_exists.mp hsome
      have := (draining_step h ha hs).fuel
      omega
  | succ n ih =>
    intro k w h hk
    by_cases hall : ∀ t, t < N → (w.pc t).isReturned = true
    · exact ⟨[], w, by simp, rfl, hall⟩
    · push_neg at hall
      obtain ⟨t, ht, hnr⟩ := hall
      obtain ⟨a, ha, hsome⟩ := draining_progress h t ht (by simpa using hnr)
      obtain ⟨w2, hs⟩ := Option.isSome_iff_exists.mp hsome
      obtain ⟨sched, w1, h1, h2, h3⟩ := ih (k + 1) w2 (draining_step h ha hs) (by omega)
      refine ⟨a :: sched, w1, ?_, ?_, h3⟩
      · intro b hb
        rcases List.mem_cons.mp hb with e | e
        · rw [e]; exact ha
        · exact h1 b e
      · simp only [run, hs]
        exact h2

/-- C4: start with `N ≥ 1` threads blocked in a wait call (no release owed, event clear) and
do one `pthread_cond_broadcast`.  Then along every schedule of steps of the waiters: as long
as one of the `N` waiters has not returned some further step is enabled, no such schedule is
longer than `5 * N` steps (so none of the `N` stays blocked), and whenever all `N` have
returned the counters `waiters_count_` and `release_count_` are both 0 and the event is
clear; and there is a schedule after which all `N` have returned. -/
theorem pthread_cond_broadcast_releases_all (N : Nat) (hN : 1 ≤ N) (w : World)
    (hw : NWaiters N w) :
    (∀ (sched : List Action) (w1 : World),
        (∀ a ∈ sched, a.isWaiterStep = true) →
        run w (Action.broadcast :: sched) = some w1 →
          sched.length ≤ 5 * N ∧
          ((∀ t, t < N → (w1.pc t).isReturned = true) →
            w1.cv.waiters_count_ = 0 ∧ w1.cv.release_count_ = 0 ∧ w1.cv.event_ = false) ∧
          (∀ t, t < N → (w1.pc t).isReturned = false →
            ∃ a, a.isWaiterStep = true ∧ (step w1 a).isSome = true)) ∧
    (∃ (sched : List Action) (w1 : World),
        (∀ a ∈ sched, a.isWaiterStep = true) ∧
        run w (Action.broadcast :: sched) = some w1 ∧
        ∀ t, t < N → (w1.pc t).isReturned = true) := by
  obtain ⟨w0, hs⟩ : ∃ w0, step w Action.broadcast = some w0 := ⟨_, rfl⟩
  have h0 := draining_init hN hw hs
  constructor
  · intro sched w1 hsched hrun
    simp only [run, hs] at hrun
    have h1 := draining_run sched h0 hsched hrun
    refine ⟨?_, fun hall => draining_all_returned h1 hall, fun t ht hnr => draining_progress h1 t ht hnr⟩
    have := h1.fuel
    omega
  · obtain ⟨sched, w1, h1, h2, h3⟩ := draining_finishes (5 * N) 0 w0 h0 (by omega)
    exact ⟨sched, w1, h1, by simp only [run, hs]; exact h2, h3⟩

theorem twoBlocked_NWaiters : NWaiters 2 twoBlocked := by
  refine ⟨rfl, rfl, rfl, rfl, ?_, ?_⟩
  · intro t ht
    exact ⟨false, 0, by decide, by simp [twoBlocked, ht]⟩
  · intro t ht
    have : ¬ t < 2 := by omega
    simp [twoBlocked, this]

theorem pthread_cond_broadcast_releases_all_witness :
    ∃ (sched : List Action) (w1 : World),
      (∀ a ∈ sched, a.isWaiterStep = true) ∧
      run twoBlocked (Action.broadcast :: sched) = some w1 ∧
      ∀ t, t < 2 → (w1.pc t).isReturned = true :=
  (pthread_cond_broadcast_releases_all 2 (by decide) twoBlocked twoBlocked_NWaiters).2

theorem pthread_cond_wait_returns_after_signal_witness :
    step lockedByZero (Action.wait 0) = some zeroWaiting ∧
    (run zeroWaiting signalThenLeave).map (fun w => w.pc 0) = some (Pc.returned false 0) ∧
    0 < effectiveCount zeroWaiting signalThenLeave :=
  ⟨rfl, by decide,
   (pthread_cond_wait_returns_after_signal lockedByZero zeroWaiting
      ((run zeroWaiting signalThenLeave).get (by decide)) 0 signalThenLeave 0 rfl
      (by decide) (by simp) (by decide)).2.2⟩

/-- C3, evaluated on the code: two threads are blocked in `pthread_cond_wait` (counters 2 and
0, event clear).  One `pthread_cond_signal` is issued and no broadcast.  Both waiters wake on
the manual-reset event and both evaluate `wait_done` as true before either of them reaches
the final locked section, so both return; `release_count_` ends at -1. -/
theorem pthread_cond_signal_releases_two_waiters :
    (run World.init twoWaiters).map (World.view 2) =
      some ({ waiters_count_ := 2, release_count_ := 0, wait_generation_count_ := 0,
              event_ := false },
            none, [Pc.blocked false 0, Pc.blocked false 0]) ∧
    oneSignalRace.count Action.signal = 1 ∧ oneSignalRace.count Action.broadcast = 0 ∧
    (run World.init (twoWaiters ++ oneSignalRace)).map (World.view 2) =
      some ({ waiters_count_ := 0, release_count_ := -1, wait_generation_count_ := 1,
              event_ := false },
            none, [Pc.returned false 0, Pc.returned false 0]) := by
  decide

/-- C5, evaluated on the code: the world reached by `twoWaiters ++ oneSignalRace` has
`waiters_count_ = 0` and `release_count_ = -1`.  `pthread_cond_signal` there finds
`waiters_count_ > release_count_`, sets the event, raises `release_count_` to 0 and the
generation to 2, although no thread waits; `pthread_cond_broadcast`, which tests
`waiters_count_ > 0`, changes nothing in the same state. -/
theorem pthread_cond_signal_zero_waiters_not_noop :
    (run World.init (twoWaiters ++ oneSignalRace)).map
        (fun w => (w.cv, pthread_cond_signal w.cv, pthread_cond_broadcast w.cv)) =
      some ({ waiters_count_ := 0, release_count_ := -1, wait_generation_count_ := 1,
              event_ := false },
            { waiters_count_ := 0, release_count_ := 0, wait_generation_count_ := 2,
              event_ := true },
            { waiters_count_ := 0, release_count_ := -1, wait_generation_count_ := 1,
              event_ := false }) := by
  decide

/-- In every state with `waiters_count_ = 0`, `pthread_cond_broadcast` changes nothing, and
`pthread_cond_signal` changes nothing exactly when `release_count_` is not negative. -/
theorem pthread_cond_signal_broadcast_no_waiters (cv : pthread_cond_t)
    (hw : cv.waiters_count_ = 0) :
    pthread_cond_broadcast cv = cv ∧
    (pthread_cond_signal cv = cv ↔ 0 ≤ cv.release_count_) := by
  refine ⟨?_, ?_, ?_⟩
  · unfold pthread_cond_broadcast
    rw [if_neg (by omega)]
  · intro h
    by_contra hr
    have hg : cv.waiters_count_ > cv.release_count_ := by omega
    have h2 := congrArg pthread_cond_t.release_count_ h
    unfold pthread_cond_signal at h2
    rw [if_pos hg] at h2
    simp at h2
  · intro hr
    unfold pthread_cond_signal
    rw [if_neg (by omega)]

theorem pthread_cond_signal_broadcast_no_waiters_witness :
    pthread_cond_broadcast pthread_cond_init = pthread_cond_init ∧
    pthread_cond_signal pthread_cond_init = pthread_cond_init :=
  have h := pthread_cond_signal_broadcast_no_waiters pthread_cond_init rfl
  ⟨h.1, h.2.mpr (by decide)⟩

/-- C7, evaluated on the code: after the race of `oneSignalRace` a third thread enters
`pthread_cond_wait` (1 waiter, `release_count_ = -1`).  A `pthread_cond_signal` issued then
finds `waiters_count_ > release_count_`, yet leaves `release_count_ = 0`; the waiter wakes,
evaluates `wait_done` as false and blocks again. -/
theorem pthread_cond_signal_lost_after_race :
    (run World.init (twoWaiters ++ oneSignalRace ++ thirdWaiter)).map (World.view 3) =
      some ({ waiters_count_ := 1, release_count_ := -1, wait_generation_count_ := 1,
              event_ := false },
            none, [Pc.returned false 0, Pc.returned false 0, Pc.blocked false 1]) ∧
    (run World.init (twoWaiters ++ oneSignalRace ++ thirdWaiter ++ [Action.signal])).map
        (World.view 3) =
      some ({ waiters_count_ := 1, release_count_ := 0, wait_generation_count_ := 2,
              event_ := true },
            none, [Pc.returned false 0, Pc.returned false 0, Pc.blocked false 1]) ∧
    (run World.init (twoWaiters ++ oneSignalRace ++ thirdWaiter ++
        [Action.signal, Action.wake 2, Action.check 2 false])).map (World.view 3) =
      some ({ waiters_count_ := 1, release_count_ := 0, wait_generation_count_ := 2,
              event_ := true },
            none, [Pc.returned false 0, Pc.returned false 0, Pc.blocked false 1]) := by
  decide

/-! ## Starting the monitor, on-demand detach, single unmount -/

/-- C13: with `mountOnDemand`, `unmountFS` only detaches the root and returns `false`, after
which `isMounted()` is false.  A pass of the monitor loop that reaches the threshold with no
open file then records the detach, does not call `fuse_unmount`, does not call
`pthread_cond_wait`, stays in the loop (it goes on to `pthread_cond_timedwait`) and the next
poll is processed as any other. -/
theorem idleMonitor_on_demand_detaches (T : Int) (s : Monitor) (p : Poll)
    (hu : p.usage = 0) (hm : p.isMounted = true) (ho : p.openCount = 0)
    (hT : T ≤ s.idleCycles + 1) :
    unmountFS true = (false, [Event.detach]) ∧
    mountedAfter true true = false ∧
    (idleMonitorBody T true p s).log = s.log ++ [Event.detach, Event.condTimedWait] ∧
    (idleMonitorBody T true p s).exited = false ∧
    (idleMonitorBody T true p s).unmountres = false ∧
    (idleMonitorBody T true p s).idleCycles = s.idleCycles + 1 ∧
    (∀ (q : Poll) (qs : List Poll), q.running = true →
      idleMonitorLoop T true (q :: qs) (idleMonitorBody T true p s) =
        idleMonitorLoop T true qs (idleMonitorBody T true q (idleMonitorBody T true p s))) := by
  have h : s.idleCycles + 1 ≥ T := by omega
  have hb : idleMonitorBody T true p s =
      { idleCycles := s.idleCycles + 1, unmountres := false, exited := false,
        log := s.log ++ [Event.detach, Event.condTimedWait] } := by
    unfold idleMonitorBody
    simp [hu, hm, ho, h, unmountFS]
  refine ⟨rfl, rfl, ?_, ?_, ?_, ?_, ?_⟩
  · rw [hb]
  · rw [hb]
  · rw [hb]
  · rw [hb]
  · intro q qs hq
    rw [hb]
    simp [idleMonitorLoop, hq]

theorem idleMonitor_on_demand_detaches_witness :
    (idleMonitorBody 6 true idlePoll monitorAtFive).exited = false ∧
    (idleMonitorBody 6 true idlePoll monitorAtFive).log =
      monitorAtFive.log ++ [Event.detach, Event.condTimedWait] :=
  have h := idleMonitor_on_demand_detaches 6 monitorAtFive idlePoll rfl rfl rfl (by decide)
  ⟨h.2.2.2.1, h.2.2.1⟩

theorem idleMonitorBody_full_unmount (T : Int) (p : Poll) (s : Monitor) :
    (idleMonitorBody T false p s).exited = false ∧
      unmountCalls (idleMonitorBody T false p s).log = unmountCalls s.log ∨
    (idleMonitorBody T false p s).exited = true ∧
      unmountCalls (idleMonitorBody T false p s).log = unmountCalls s.log + 1 ∧
      ∃ pre, unmountCalls pre = unmountCalls s.log ∧
        (idleMonitorBody T false p s).log = pre ++ [Event.fuseUnmount, Event.condWait] := by
  have hc1 : unmountCalls (if p.usage = 0 ∧ p.isMounted = true then s.log
      else if s.idleCycles ≥ T then s.log ++ [Event.logNoLongerInactive] else s.log)
      = unmountCalls s.log := by
    split_ifs <;> simp [unmountCalls, Event.isUnmount]
  unfold idleMonitorBody
  simp only [unmountFS, idleMonitorExit, Bool.false_eq_true, if_false, if_true]
  by_cases hth : (if p.usage = 0 ∧ p.isMounted = true then s.idleCycles + 1 else 0) ≥ T
  · by_cases ho : p.openCount = 0
    · right
      simp only [hth, ho, if_true]
      refine ⟨trivial, ?_, ⟨_, hc1, by simp⟩⟩
      simp only [unmountCalls, List.countP_append] at hc1 ⊢
      rw [hc1]
      simp [Event.isUnmount]
    · left
      simp only [hth, ho, if_true, if_false]
      refine ⟨trivial, ?_⟩
      simp only [unmountCalls, List.countP_append] at hc1 ⊢
      rw [hc1]
      simp [Event.isUnmount]
  · left
    simp only [hth, if_false]
    refine ⟨trivial, ?_⟩
    simp only [unmountCalls, List.countP_append] at hc1 ⊢
    rw [hc1]
    simp [Event.isUnmount]

theorem idleMonitorExit_log_of_unmountres (s : Monitor) (h : s.unmountres = true) :
    (idleMonitorExit s).log = s.log := by
  simp [idleMonitorExit, h]

/-- C14: in full-unmount mode, whatever the threshold and the polls, a monitor that starts in
its loop without an unmount behind it calls `unmountFS` at most once; when it has called it,
the call is followed by `pthread_cond_wait` and by nothing else (these are the last two
actions), the loop has been left, and further polls change nothing. -/
theorem idleMonitor_unmounts_at_most_once (T : Int) (s : Monitor) (ps : List Poll)
    (hs : s.exited = false) (h0 : unmountCalls s.log = 0) :
    unmountCalls (idleMonitorLoop T false ps s).log ≤ 1 ∧
    (unmountCalls (idleMonitorLoop T false ps s).log = 1 →
      (idleMonitorLoop T false ps s).exited = true ∧
      (∃ pre, unmountCalls pre = 0 ∧
        (idleMonitorLoop T false ps s).log = pre ++ [Event.fuseUnmount, Event.condWait]) ∧
      ∀ qs, idleMonitorLoop T false qs (idleMonitorLoop T false ps s) =
        idleMonitorLoop T false ps s) := by
  induction ps generalizing s with
  | nil =>
    simp only [idleMonitorLoop]
    exact ⟨by omega, fun h => by omega⟩
  | cons p ps ih =>
    simp only [idleMonitorLoop, hs, Bool.false_eq_true, if_false]
    by_cases hr : p.running = true
    · simp only [hr, if_true]
      rcases idleMonitorBody_full_unmount T p s with ⟨he, hc⟩ | ⟨he, hc, pre, hpre, hlog⟩
      · exact ih _ he (by omega)
      · rw [idleMonitorLoop_exited _ _ _ _ he]
        refine ⟨by omega, fun _ => ⟨he, ⟨pre, by omega, hlog⟩, fun qs => ?_⟩⟩
        exact idleMonitorLoop_exited _ _ _ _ he
    · simp only [hr, if_false, Bool.false_eq_true]
      rw [idleMonitorExit_unmountCalls]
      exact ⟨by omega, fun h => by omega⟩

theorem idleMonitor_unmounts_at_most_once_witness :
    unmountCalls (idleMonitor 1 false (List.replicate 20 idlePoll)).log ≤ 1 ∧
    (idleMonitor 1 false (List.replicate 20 idlePoll)).exited = true :=
  have h := idleMonitor_unmounts_at_most_once 6 idleMonitorStart (List.replicate 20 idlePoll)
    rfl (by decide)
  ⟨h.1, (h.2 (by decide)).1⟩

/-! ## Signal, broadcast and the wake-up by the session owner -/

/-- C16: in every state with `waiters_count_ > release_count_`, `pthread_cond_signal` sets the
event, adds exactly 1 to `release_count_` and to the generation and leaves `waiters_count_`
alone; in every state with `waiters_count_ ≤ release_count_` it changes nothing. -/
theorem pthread_cond_signal_state_change (cv : pthread_cond_t) :
    (cv.waiters_count_ > cv.release_count_ →
      (pthread_cond_signal cv).event_ = true ∧
      (pthread_cond_signal cv).release_count_ = cv.release_count_ + 1 ∧
      (pthread_cond_signal cv).wait_generation_count_ = cv.wait_generation_count_ + 1 ∧
      (pthread_cond_signal cv).waiters_count_ = cv.waiters_count_) ∧
    (cv.waiters_count_ ≤ cv.release_count_ → pthread_cond_signal cv = cv) := by
  constructor
  · intro h
    simp [pthread_cond_signal, h]
  · intro h
    have h1 : ¬ (cv.waiters_count_ > cv.release_count_) := by omega
    simp [pthread_cond_signal, h1]

theorem pthread_cond_signal_state_change_witness :
    (pthread_cond_signal twoBlocked.cv).release_count_ = twoBlocked.cv.release_count_ + 1 ∧
    pthread_cond_signal pthread_cond_init = pthread_cond_init :=
  ⟨((pthread_cond_signal_state_change twoBlocked.cv).1 (by decide)).2.1,
   (pthread_cond_signal_state_change pthread_cond_init).2 (by decide)⟩

/-- C17: in every state with `waiters_count_ > 0`, `pthread_cond_broadcast` sets the event,
makes `release_count_` equal to `waiters_count_`, adds exactly 1 to the generation and leaves
`waiters_count_` alone. -/
theorem pthread_cond_broadcast_state_change (cv : pthread_cond_t)
    (h : cv.waiters_count_ > 0) :
    (pthread_cond_broadcast cv).event_ = true ∧
    (pthread_cond_broadcast cv).release_count_ = cv.waiters_count_ ∧
    (pthread_cond_broadcast cv).wait_generation_count_ = cv.wait_generation_count_ + 1 ∧
    (pthread_cond_broadcast cv).waiters_count_ = cv.waiters_count_ := by
  simp [pthread_cond_broadcast, h]

theorem pthread_cond_broadcast_state_change_witness :
    (pthread_cond_broadcast twoBlocked.cv).release_count_ = 2 ∧
    (pthread_cond_broadcast twoBlocked.cv).wait_generation_count_ = 1 :=
  have h := pthread_cond_broadcast_state_change twoBlocked.cv (by decide)
  ⟨h.2.1, h.2.2.1⟩

theorem oneBlocked_NWaiters : NWaiters 1 oneBlocked := by
  refine ⟨rfl, rfl, rfl, rfl, ?_, ?_⟩
  · intro t ht
    have h0 : t = 0 := by omega
    subst h0
    exact ⟨true, 0, by decide, rfl⟩
  · intro t ht
    have h0 : ¬ t < 1 := by omega
    simp only [oneBlocked, h0, if_false]

theorem run_mainWake (w w0 : World) (m : Nat) (sched : List Action) (hw : NWaiters 1 w)
    (hm : 1 ≤ m) (hs : step w Action.broadcast = some w0) :
    run w (mainWake m ++ sched) = run w0 sched := by
  obtain ⟨hwc, hrc, hev, hmx, hpcs, hrest⟩ := hw
  have hidle : w.pc m = Pc.idle := hrest m hm
  have hsig : pthread_cond_signal w.cv = pthread_cond_broadcast w.cv := by
    have h1 : w.cv.waiters_count_ > w.cv.release_count_ := by omega
    have h2 : w.cv.waiters_count_ > 0 := by omega
    have h3 : w.cv.release_count_ + 1 = w.cv.waiters_count_ := by omega
    simp [pthread_cond_signal, pthread_cond_broadcast, h1, h2, h3]
  simp only [step] at hs
  cases hs
  simp only [mainWake, List.cons_append, List.nil_append, run, step, hmx, hidle, Pc.outside,
    and_self, if_true, hsig]
  rfl

/-- C15, as stated, fails: with two actors blocked on `wakeupCond` and no release owed, the
wake-up that `main` issues after clearing `running` leaves `release_count_ = 1`, not 2 as a
broadcast would. -/
theorem mainStopMonitor_not_broadcast :
    twoBlocked.cv.waiters_count_ = 2 ∧
    (mainStopMonitor 1 true twoBlocked.cv).2.release_count_ = 1 ∧
    (pthread_cond_broadcast twoBlocked.cv).release_count_ = 2 ∧
    (mainStopMonitor 1 true twoBlocked.cv).2 ≠ pthread_cond_broadcast twoBlocked.cv := by
  decide

/-- C15 (amended): when the session owner stops the monitor (`idleTimeout > 0`) it clears
`running` and wakes `wakeupCond` with one `pthread_cond_signal`: for every number `k ≥ 1` of
actors blocked there with no release owed, afterwards the event is set, the generation has
advanced by 1 and exactly one release is owed (`release_count_ = 1`) whatever `k`.  When the
watchdog is the only one blocked, some step of it is enabled until it has returned from its
wait, which takes at most 5 steps, and a monitor that then reads `running` as false leaves its
loop without a poll: no counter is read, `idleCycles` keeps its value and `unmountFS` is not
called. -/
theorem mainStopMonitor_signals_once (idleTimeout : Int) (hpos : 0 < idleTimeout)
    (running : Bool) (cv : pthread_cond_t) (hk : 1 ≤ cv.waiters_count_)
    (hr : cv.release_count_ = 0) :
    (mainStopMonitor idleTimeout running cv).1 = false ∧
    (mainStopMonitor idleTimeout running cv).2 = pthread_cond_signal cv ∧
    (mainStopMonitor idleTimeout running cv).2.release_count_ = 1 ∧
    (mainStopMonitor idleTimeout running cv).2.wait_generation_count_
      = cv.wait_generation_count_ + 1 ∧
    (mainStopMonitor idleTimeout running cv).2.event_ = true ∧
    (mainStopMonitor idleTimeout running cv).2.waiters_count_ = cv.waiters_count_ ∧
    (∀ (w : World) (m : Nat), NWaiters 1 w → 1 ≤ m →
      (∃ (sched : List Action) (w1 : World), (∀ a ∈ sched, a.isWaiterStep = true) ∧
        run w (mainWake m ++ sched) = some w1 ∧ (w1.pc 0).isReturned = true) ∧
      (∀ (sched : List Action) (w1 : World), (∀ a ∈ sched, a.isWaiterStep = true) →
        run w (mainWake m ++ sched) = some w1 →
        sched.length ≤ 5 ∧
        ((w1.pc 0).isReturned = false →
          ∃ a, a.isWaiterStep = true ∧ (step w1 a).isSome = true))) ∧
    (∀ (T : Int) (mountOnDemand : Bool) (p : Poll) (ps : List Poll) (s : Monitor),
      s.exited = false → p.running = false →
        idleMonitorLoop T mountOnDemand (p :: ps) s = idleMonitorExit s ∧
        (idleMonitorExit s).exited = true ∧
        (idleMonitorExit s).idleCycles = s.idleCycles ∧
        unmountCalls (idleMonitorExit s).log = unmountCalls s.log) := by
  have hgt : cv.waiters_count_ > cv.release_count_ := by omega
  have hm : mainStopMonitor idleTimeout running cv = (false, pthread_cond_signal cv) := by
    simp [mainStopMonitor, hpos]
  rw [hm]
  refine ⟨rfl, rfl, ?_, ?_, ?_, ?_, ?_, ?_⟩
  · have hk0 : 0 < cv.waiters_count_ := by omega
    simp [pthread_cond_signal, hr, hk0]
  · simp [pthread_cond_signal, hgt]
  · simp [pthread_cond_signal, hgt]
  · simp [pthread_cond_signal, hgt]
  · intro w m hw hm1
    obtain ⟨w0, hs⟩ : ∃ w0, step w Action.broadcast = some w0 := ⟨_, rfl⟩
    have h0 := draining_init (le_refl 1) hw hs
    constructor
    · obtain ⟨sched, w1, h1, h2, h3⟩ := draining_finishes (5 * 1) 0 w0 h0 (by omega)
      exact ⟨sched, w1, h1, by rw [run_mainWake w w0 m sched hw hm1 hs]; exact h2,
        h3 0 (by omega)⟩
    · intro sched w1 hsched hrun
      rw [run_mainWake w w0 m sched hw hm1 hs] at hrun
      have h1 := draining_run sched h0 hsched hrun
      refine ⟨?_, fun hnr => draining_progress h1 0 (by omega) hnr⟩
      have := h1.fuel
      omega
  · intro T mountOnDemand p ps s hs hp
    refine ⟨by simp [idleMonitorLoop, hs, hp], rfl, rfl, idleMonitorExit_unmountCalls s⟩

theorem mainStopMonitor_signals_once_witness :
    (mainStopMonitor 1 true oneBlocked.cv).2.release_count_ = 1 ∧
    ∃ (sched : List Action) (w1 : World), (∀ a ∈ sched, a.isWaiterStep = true) ∧
      run oneBlocked (mainWake 1 ++ sched) = some w1 ∧ (w1.pc 0).isReturned = true :=
  have h := mainStopMonitor_signals_once 1 (by decide) true oneBlocked.cv (by decide) rfl
  ⟨h.2.2.1, (h.2.2.2.2.2.2.1 oneBlocked 1 oneBlocked_NWaiters (le_refl 1)).1⟩

/-! ## The protocol of the two wait calls -/

theorem step_frame (w w1 : World) (a : Action) (u : Nat) (h : step w a = some w1)
    (hu : a.thread ≠ some u) : w1.pc u = w.pc u := by
  cases a with
  | lock t =>
    simp only [step] at h
    split_ifs at h
    cases h
    rfl
  | unlock t =>
    simp only [step] at h
    split_ifs at h
    cases h
    rfl
  | wait t =>
    have hne : u ≠ t := fun e => hu (by rw [e]; rfl)
    simp only [step, stepEnter] at h
    split_ifs at h
    cases h
    exact setPc_ne _ _ _ _ hne
  | timedwait t =>
    have hne : u ≠ t := fun e => hu (by rw [e]; rfl)
    simp only [step, stepEnter] at h
    split_ifs at h
    cases h
    exact setPc_ne _ _ _ _ hne
  | wake t =>
    have hne : u ≠ t := fun e => hu (by rw [e]; rfl)
    simp only [step] at h
    split at h
    · split_ifs at h
      cases h
      exact setPc_ne _ _ _ _ hne
    · cases h
  | check t e =>
    have hne : u ≠ t := fun e => hu (by rw [e]; rfl)
    simp only [step] at h
    split at h
    · split_ifs at h <;> cases h <;> exact setPc_ne _ _ _ _ hne
    · cases h
  | finish t =>
    have hne : u ≠ t := fun e => hu (by rw [e]; rfl)
    simp only [step] at h
    split at h
    · rename_i timed g hpc
      by_cases hm : w.mutex = none
      · rw [if_pos hm] at h
        cases h
        exact setPc_ne _ _ _ _ hne
      · rw [if_neg hm] at h
        cases h
    · cases h
  | reset t =>
    have hne : u ≠ t := fun e => hu (by rw [e]; rfl)
    simp only [step] at h
    split at h
    · cases h
      exact setPc_ne _ _ _ _ hne
    · cases h
  | signal =>
    simp only [step] at h
    cases h
    rfl
  | broadcast =>
    simp only [step] at h
    cases h
    rfl

theorem step_check_eq (w : World) (t : Nat) (e timed : Bool) (g : Int)
    (hpc : w.pc t = Pc.awake timed g) :
    step w (Action.check t e) =
      some { w with pc := (setPc w.pc t
        (if waitDone w.cv g = true ∨ (timed = true ∧ e = true) then Pc.leaving timed g
         else Pc.blocked timed g)) } := by
  simp only [step, hpc]
  by_cases hd : waitDone w.cv g = true
  · simp [hd]
  · by_cases hx : timed = true ∧ e = true
    · simp [hd, hx]
    · simp only [hd, hx, if_false, or_self]
      simp

theorem step_finish_eq (w : World) (t : Nat) (timed : Bool) (g : Int)
    (hpc : w.pc t = Pc.leaving timed g) (hm : w.mutex = none) :
    step w (Action.finish t) =
      some { cv := (waitLeave w.cv).1, mutex := some t,
             pc := setPc w.pc t (if (waitLeave w.cv).2 = true then Pc.resetting timed g
                                 else Pc.returned timed g) } := by
  simp only [step, hpc, hm, if_true]

theorem step_reset_eq (w : World) (t : Nat) (timed : Bool) (g : Int)
    (hpc : w.pc t = Pc.resetting timed g) :
    step w (Action.reset t) =
      some { w with cv := resetEvent w.cv, pc := setPc w.pc t (Pc.returned timed g) } := by
  simp only [step, hpc]

theorem step_leaves_loop (w w1 : World) (a : Action) (t : Nat) (timed timed1 : Bool)
    (g g1 : Int) (hpc : w.pc t = Pc.blocked timed g ∨ w.pc t = Pc.awake timed g)
    (hs : step w a = some w1) (h1 : w1.pc t = Pc.leaving timed1 g1) :
    (∃ e, a = Action.check t e ∧ (waitDone w.cv g = true ∨ (timed = true ∧ e = true))) ∧
    w.pc t = Pc.awake timed g ∧ timed1 = timed ∧ g1 = g ∧ w1.cv = w.cv := by
  by_cases hth : a.thread = some t
  · cases a with
    | signal => simp [Action.thread] at hth
    | broadcast => simp [Action.thread] at hth
    | lock u =>
      simp only [step] at hs
      split_ifs at hs
      cases hs
      rcases hpc with h | h <;> rw [h] at h1 <;> cases h1
    | unlock u =>
      simp only [step] at hs
      split_ifs at hs
      cases hs
      rcases hpc with h | h <;> rw [h] at h1 <;> cases h1
    | wait u =>
      simp only [Action.thread, Option.some.injEq] at hth
      subst hth
      simp only [step, stepEnter] at hs
      split_ifs at hs with hc
      rcases hpc with h | h <;> rw [h] at hc <;> simp [Pc.outside] at hc
    | timedwait u =>
      simp only [Action.thread, Option.some.injEq] at hth
      subst hth
      simp only [step, stepEnter] at hs
      split_ifs at hs with hc
      rcases hpc with h | h <;> rw [h] at hc <;> simp [Pc.outside] at hc
    | wake u =>
      simp only [Action.thread, Option.some.injEq] at hth
      subst hth
      simp only [step] at hs
      split at hs
      · split_ifs at hs
        cases hs
        simp [setPc] at h1
      · cases hs
    | check u e =>
      simp only [Action.thread, Option.some.injEq] at hth
      subst hth
      rcases hpc with h | h
      · simp [step, h] at hs
      · rw [step_check_eq w u e timed g h] at hs
        cases hs
        simp only [setPc_self] at h1
        split_ifs at h1 with hc
        cases h1
        exact ⟨⟨e, rfl, hc⟩, h, rfl, rfl, rfl⟩
    | finish u =>
      simp only [Action.thread, Option.some.injEq] at hth
      subst hth
      rcases hpc with h | h <;> simp [step, h] at hs
    | reset u =>
      simp only [Action.thread, Option.some.injEq] at hth
      subst hth
      rcases hpc with h | h <;> simp [step, h] at hs
  · have hf := step_frame w w1 a t hs hth
    rw [hf] at h1
    rcases hpc with h | h <;> rw [h] at h1 <;> cases h1

theorem step_returns (w w1 : World) (a : Action) (t : Nat) (timed : Bool) (g : Int)
    (hpc : (w.pc t).isReturned = false) (hs : step w a = some w1)
    (h1 : w1.pc t = Pc.returned timed g) :
    (a = Action.finish t ∧ w.pc t = Pc.leaving timed g ∧ w1.cv = (waitLeave w.cv).1 ∧
      w1.cv.release_count_ ≠ 0) ∨
    (a = Action.reset t ∧ w.pc t = Pc.resetting timed g ∧ w1.cv = resetEvent w.cv) := by
  by_cases hth : a.thread = some t
  · cases a with
    | signal => simp [Action.thread] at hth
    | broadcast => simp [Action.thread] at hth
    | lock u =>
      simp only [step] at hs
      split_ifs at hs
      cases hs
      rw [h1] at hpc
      simp [Pc.isReturned] at hpc
    | unlock u =>
      simp only [step] at hs
      split_ifs at hs
      cases hs
      rw [h1] at hpc
      simp [Pc.isReturned] at hpc
    | wait u =>
      simp only [Action.thread, Option.some.injEq] at hth
      subst hth
      simp only [step, stepEnter] at hs
      split_ifs at hs
      cases hs
      simp [setPc] at h1
    | timedwait u =>
      simp only [Action.thread, Option.some.injEq] at hth
      subst hth
      simp only [step, stepEnter] at hs
      split_ifs at hs
      cases hs
      simp [setPc] at h1
    | wake u =>
      simp only [Action.thread, Option.some.injEq] at hth
      subst hth
      simp only [step] at hs
      split at hs
      · split_ifs at hs
        cases hs
        simp [setPc] at h1
      · cases hs
    | check u e =>
      simp only [Action.thread, Option.some.injEq] at hth
      subst hth
      simp only [step] at hs
      split at hs
      · split_ifs at hs <;> cases hs <;> simp [setPc] at h1
      · cases hs
    | finish u =>
      simp only [Action.thread, Option.some.injEq] at hth
      subst hth
      left
      simp only [step] at hs
      split at hs
      · rename_i timed2 g2 hpc2
        by_cases hm : w.mutex = none
        · rw [if_pos hm] at hs
          cases hs
          simp only [setPc_self] at h1
          split_ifs at h1 with hl
          cases h1
          refine ⟨rfl, hpc2, rfl, ?_⟩
          simpa [waitLeave] using hl
        · rw [if_neg hm] at hs
          cases hs
      · cases hs
    | reset u =>
      simp only [Action.thread, Option.some.injEq] at hth
      subst hth
      right
      simp only [step] at hs
      split at hs
      · rename_i timed2 g2 hpc2
        cases hs
        simp only [setPc_self] at h1
        cases h1
        exact ⟨rfl, hpc2, rfl⟩
      · cases hs
  · have hf := step_frame w w1 a t hs hth
    rw [hf] at h1
    rw [h1] at hpc
    simp [Pc.isReturned] at hpc

/-- C18: the protocol of `pthread_cond_wait`, step by step, for every world and every thread.
Entry adds 1 to `waiters_count_`, records the current generation, releases the mutex and
blocks.  A thread in the loop is past it after a step only if the step was its own check on a
wake with `release_count_ > 0` and a generation other than the recorded one, and such a check
does take it out.  The final section subtracts 1 from `waiters_count_` and from
`release_count_`; the thread returns straight away when `release_count_` has not become 0, and
otherwise it first resets the event.  A thread returns by no other step. -/
theorem pthread_cond_wait_protocol (w w1 : World) (a : Action) (t : Nat) (g : Int)
    (hs : step w a = some w1) :
    (a = Action.wait t →
      w.mutex = some t ∧ w1.mutex = none ∧
      w1.cv = { w.cv with waiters_count_ := w.cv.waiters_count_ + 1 } ∧
      w1.pc t = Pc.blocked false w.cv.wait_generation_count_) ∧
    ((w.pc t = Pc.blocked false g ∨ w.pc t = Pc.awake false g) →
      w1.pc t = Pc.leaving false g →
        (∃ e, a = Action.check t e) ∧ w.pc t = Pc.awake false g ∧
        w.cv.release_count_ > 0 ∧ w.cv.wait_generation_count_ ≠ g ∧ w1.cv = w.cv) ∧
    (w.pc t = Pc.awake false g → (∃ e, a = Action.check t e) →
      (w.cv.release_count_ > 0 ∧ w.cv.wait_generation_count_ ≠ g →
        w1.pc t = Pc.leaving false g) ∧
      (¬ (w.cv.release_count_ > 0 ∧ w.cv.wait_generation_count_ ≠ g) →
        w1.pc t = Pc.blocked false g)) ∧
    (w.pc t = Pc.leaving false g → a = Action.finish t →
      w1.cv.waiters_count_ = w.cv.waiters_count_ - 1 ∧
      w1.cv.release_count_ = w.cv.release_count_ - 1 ∧
      w1.cv.wait_generation_count_ = w.cv.wait_generation_count_ ∧
      w1.cv.event_ = w.cv.event_ ∧
      (w1.cv.release_count_ = 0 → w1.pc t = Pc.resetting false g) ∧
      (w1.cv.release_count_ ≠ 0 → w1.pc t = Pc.returned false g)) ∧
    (w.pc t = Pc.resetting false g → a = Action.reset t →
      w1.cv = { w.cv with event_ := false } ∧ w1.pc t = Pc.returned false g) ∧
    ((w.pc t).isReturned = false → w1.pc t = Pc.returned false g →
      (a = Action.finish t ∧ w.pc t = Pc.leaving false g ∧
        w1.cv.release_count_ = w.cv.release_count_ - 1 ∧ w1.cv.release_count_ ≠ 0 ∧
        w1.cv.event_ = w.cv.event_) ∨
      (a = Action.reset t ∧ w.pc t = Pc.resetting false g ∧ w.cv.release_count_ = w1.cv.release_count_ ∧
        w1.cv.event_ = false)) := by
  refine ⟨?_, ?_, ?_, ?_, ?_, ?_⟩
  · intro ha
    subst ha
    simp only [step, stepEnter] at hs
    split_ifs at hs with hc
    cases hs
    exact ⟨hc.1, rfl, rfl, setPc_self _ _ _⟩
  · intro hpc h1
    obtain ⟨⟨e, he, hd⟩, h2, _, _, h3⟩ := step_leaves_loop w w1 a t false false g g hpc hs h1
    have hd1 : waitDone w.cv g = true := by
      rcases hd with hd | hd
      · exact hd
      · exact absurd hd.1 (by simp)
    simp only [waitDone, Bool.and_eq_true, decide_eq_true_eq] at hd1
    exact ⟨⟨e, he⟩, h2, hd1.1, hd1.2, h3⟩
  · rintro hpc ⟨e, rfl⟩
    rw [step_check_eq w t e false g hpc] at hs
    cases hs
    simp only [setPc_self]
    constructor
    · intro hd
      have hd1 : waitDone w.cv g = true := by
        simpa [waitDone] using hd
      simp [hd1]
    · intro hd
      have hd1 : ¬ (waitDone w.cv g = true) := by
        simpa [waitDone] using hd
      simp [hd1]
  · intro hpc ha
    subst ha
    simp only [step, hpc] at hs
    by_cases hm : w.mutex = none
    · rw [if_pos hm] at hs
      cases hs
      refine ⟨rfl, rfl, rfl, rfl, ?_, ?_⟩
      · intro h0
        have h2 : w.cv.release_count_ - 1 = 0 := h0
        simp [setPc, waitLeave, h2]
      · intro h0
        have h2 : ¬ (w.cv.release_count_ - 1 = 0) := h0
        simp [setPc, waitLeave, h2]
    · rw [if_neg hm] at hs
      cases hs
  · intro hpc ha
    subst ha
    rw [step_reset_eq w t false g hpc] at hs
    cases hs
    exact ⟨rfl, setPc_self _ _ _⟩
  · intro hpc h1
    rcases step_returns w w1 a t false g hpc hs h1 with ⟨ha, h2, h3, h4⟩ | ⟨ha, h2, h3⟩
    · left
      refine ⟨ha, h2, ?_, h4, ?_⟩
      · rw [h3]; rfl
      · rw [h3]; rfl
    · right
      refine ⟨ha, h2, ?_, ?_⟩
      · rw [h3]; rfl
      · rw [h3]; rfl

theorem pthread_cond_wait_protocol_witness :
    step lockedByZero (Action.wait 0) = some zeroWaiting ∧
    zeroWaiting.cv =
      { lockedByZero.cv with waiters_count_ := lockedByZero.cv.waiters_count_ + 1 } ∧
    zeroWaiting.pc 0 = Pc.blocked false lockedByZero.cv.wait_generation_count_ :=
  have h := (pthread_cond_wait_protocol lockedByZero zeroWaiting (Action.wait 0) 0 0 rfl).1 rfl
  ⟨rfl, h.2.2.1, h.2.2.2⟩

theorem outside_untimed (p : Pc) : p.untimed.outside = p.outside := by
  cases p <;> rfl

theorem untimedAt_setPc (t u : Nat) (pc : Nat → Pc) (p : Pc) :
    untimedAt t (setPc pc u p) = setPc (untimedAt t pc) u (if u = t then p.untimed else p) := by
  funext v
  simp only [untimedAt, setPc]
  by_cases hv : v = u
  · subst hv
    by_cases ht : v = t <;> simp [ht]
  · by_cases ht : v = t
    · subst ht
      simp [hv]
    · simp [hv, ht]

theorem untimedAt_outside (t u : Nat) (pc : Nat → Pc) :
    (untimedAt t pc u).outside = (pc u).outside := by
  simp only [untimedAt]
  split_ifs
  · exact outside_untimed _
  · rfl

theorem stepEnter_asWait (t u : Nat) (w : World) (timed : Bool) :
    stepEnter (w.asWait t) u (if u = t then false else timed) =
      (stepEnter w u timed).map (World.asWait t) := by
  simp only [stepEnter, World.asWait, untimedAt_outside]
  split_ifs with h1 h2
  · subst h2
    simp [World.asWait, untimedAt_setPc, Pc.untimed]
  · simp [World.asWait, untimedAt_setPc, h2]
  · rfl

theorem step_asWait (t : Nat) (w : World) (a : Action) (h : a.noTimeout t = true) :
    step (w.asWait t) (a.asWait t) = (step w a).map (World.asWait t) := by
  cases a with
  | lock u =>
    simp only [Action.asWait, step, World.asWait, untimedAt_outside]
    split_ifs <;> rfl
  | unlock u =>
    simp only [Action.asWait, step, World.asWait, untimedAt_outside]
    split_ifs <;> rfl
  | wait u =>
    have := stepEnter_asWait t u w false
    simpa [Action.asWait, step] using this
  | timedwait u =>
    have := stepEnter_asWait t u w true
    by_cases hu : u = t
    · simpa [Action.asWait, step, hu] using this
    · simpa [Action.asWait, step, hu] using this
  | signal => rfl
  | broadcast => rfl
  | wake u =>
    by_cases hu : u = t
    · subst hu
      cases hpc : w.pc u <;>
        simp [Action.asWait, step, World.asWait, untimedAt, untimedAt_setPc, hpc, Pc.untimed]
    · cases hpc : w.pc u <;>
        simp [Action.asWait, step, World.asWait, untimedAt, untimedAt_setPc, hpc, hu]
  | check u e =>
    by_cases hu : u = t
    · subst hu
      have he : e = false := by
        simpa [Action.noTimeout] using h
      subst he
      cases hpc : w.pc u <;>
        simp [Action.asWait, step, World.asWait, untimedAt, untimedAt_setPc, hpc, Pc.untimed]
      split_ifs <;> simp [World.asWait, untimedAt_setPc, Pc.untimed]
    · cases hpc : w.pc u <;>
        simp [Action.asWait, step, World.asWait, untimedAt, untimedAt_setPc, hpc, hu]
      split_ifs <;> simp [World.asWait, untimedAt_setPc, hu]
  | finish u =>
    by_cases hu : u = t
    · subst hu
      cases hpc : w.pc u <;>
        simp [Action.asWait, step, World.asWait, untimedAt, untimedAt_setPc, hpc, Pc.untimed]
      by_cases hl : (waitLeave w.cv).2 = true <;> simp [hl, Pc.untimed]
    · cases hpc : w.pc u <;>
        simp [Action.asWait, step, World.asWait, untimedAt, untimedAt_setPc, hpc, hu]
  | reset u =>
    by_cases hu : u = t
    · subst hu
      cases hpc : w.pc u <;>
        simp [Action.asWait, step, World.asWait, untimedAt, untimedAt_setPc, hpc, Pc.untimed]
    · cases hpc : w.pc u <;>
        simp [Action.asWait, step, World.asWait, untimedAt, untimedAt_setPc, hpc, hu]

theorem run_asWait (t : Nat) (sched : List Action) (w : World)
    (h : ∀ a ∈ sched, a.noTimeout t = true) :
    run (w.asWait t) (sched.map (Action.asWait t)) = (run w sched).map (World.asWait t) := by
  induction sched generalizing w with
  | nil => rfl
  | cons a as ih =>
    simp only [List.map_cons, run]
    rw [step_asWait t w a (h a (List.mem_cons_self a as))]
    cases hs : step w a with
    | none => rfl
    | some w1 =>
      simp only [Option.map_some']
      exact ih w1 (fun b hb => h b (List.mem_cons_of_mem a hb))

/-- C19: `pthread_cond_timedwait` does the same exit bookkeeping as `pthread_cond_wait`.  Its
loop is left on a check either because `wait_done` holds or because the deadline is found
passed, and on no other outcome; from there the final section subtracts 1 from
`waiters_count_` and from `release_count_` and the event is reset exactly when
`release_count_` has become 0, for either call and either exit.  And along every schedule in
which the deadline of thread `t` is never found passed, replacing its
`pthread_cond_timedwait` by `pthread_cond_wait` gives the same condition-variable state, the
same mutex owner and the same thread positions. -/
theorem pthread_cond_timedwait_bookkeeping (w : World) (t : Nat) (g : Int) :
    (w.pc t = Pc.awake true g → ∀ e, ∃ w1, step w (Action.check t e) = some w1 ∧
      w1.cv = w.cv ∧
      ((w.cv.release_count_ > 0 ∧ w.cv.wait_generation_count_ ≠ g) ∨ e = true →
        w1.pc t = Pc.leaving true g) ∧
      (¬ ((w.cv.release_count_ > 0 ∧ w.cv.wait_generation_count_ ≠ g) ∨ e = true) →
        w1.pc t = Pc.blocked true g)) ∧
    (∀ timed, w.pc t = Pc.leaving timed g → w.mutex = none →
      ∃ w1, step w (Action.finish t) = some w1 ∧
        w1.cv.waiters_count_ = w.cv.waiters_count_ - 1 ∧
        w1.cv.release_count_ = w.cv.release_count_ - 1 ∧
        w1.cv.wait_generation_count_ = w.cv.wait_generation_count_ ∧
        w1.cv.event_ = w.cv.event_ ∧
        (w1.cv.release_count_ = 0 → w1.pc t = Pc.resetting timed g) ∧
        (w1.cv.release_count_ ≠ 0 → w1.pc t = Pc.returned timed g)) ∧
    (∀ timed, w.pc t = Pc.resetting timed g →
      ∃ w1, step w (Action.reset t) = some w1 ∧
        w1.cv = { w.cv with event_ := false } ∧ w1.pc t = Pc.returned timed g) ∧
    (∀ (sched : List Action) (w1 : World), (∀ a ∈ sched, a.noTimeout t = true) →
      run w sched = some w1 →
      ∃ w2, run (w.asWait t) (sched.map (Action.asWait t)) = some w2 ∧
        w2.cv = w1.cv ∧ w2.mutex = w1.mutex ∧ w2.pc = untimedAt t w1.pc) := by
  refine ⟨?_, ?_, ?_, ?_⟩
  · intro hpc e
    refine ⟨_, step_check_eq w t e true g hpc, rfl, ?_, ?_⟩
    · intro hc
      have hc1 : waitDone w.cv g = true ∨ (true = true ∧ e = true) := by
        rcases hc with hc | hc
        · left; simpa [waitDone] using hc
        · right; exact ⟨rfl, hc⟩
      show setPc w.pc t _ t = _
      rw [setPc_self, if_pos hc1]
    · intro hc
      have hc1 : ¬ (waitDone w.cv g = true ∨ (true = true ∧ e = true)) := by
        intro hx
        apply hc
        rcases hx with hx | hx
        · left; simpa [waitDone] using hx
        · right; exact hx.2
      show setPc w.pc t _ t = _
      rw [setPc_self, if_neg hc1]
  · intro timed hpc hm
    refine ⟨_, step_finish_eq w t timed g hpc hm, rfl, rfl, rfl, rfl, ?_, ?_⟩
    · intro h0
      have h2 : w.cv.release_count_ - 1 = 0 := h0
      simp [setPc, waitLeave, h2]
    · intro h0
      have h2 : ¬ (w.cv.release_count_ - 1 = 0) := h0
      simp [setPc, waitLeave, h2]
  · intro timed hpc
    exact ⟨_, step_reset_eq w t timed g hpc, rfl, setPc_self _ _ _⟩
  · intro sched w1 hno hrun
    refine ⟨w1.asWait t, ?_, rfl, rfl, rfl⟩
    rw [run_asWait t sched w hno, hrun]
    rfl

theorem pthread_cond_timedwait_bookkeeping_witness :
    (∀ a ∈ timedRound, a.noTimeout 0 = true) ∧
    ∃ w2, run (World.init.asWait 0) (timedRound.map (Action.asWait 0)) = some w2 ∧
      w2.cv = ((run World.init timedRound).get (by decide)).cv :=
  ⟨by decide,
   match (pthread_cond_timedwait_bookkeeping World.init 0 0).2.2.2 timedRound
      ((run World.init timedRound).get (by decide)) (by decide) (by simp) with
   | ⟨w2, h1, h2, _, _⟩ => ⟨w2, h1, h2⟩⟩

/-! ## The deadline of the timed wait, and the directory check -/

/-- C12, evaluated on the code: at the current time 1700000000 s the monitor passes the
deadline 1700000010 s, from which `pthread_cond_timedwait` derives the timeout
1700000010000 mod 2^32 = 3487928080 ms, not 10000 ms; 10.001 s after entry the deadline test
is still false.  Besides, the thread waits in `WaitForSingleObject(cv->event_, INFINITE)`:
while the event is clear it can neither wake nor reach the deadline test. -/
theorem pthread_cond_timedwait_deadline_is_absolute :
    idleMonitorWakeupTime sampleTime = { tv_sec := 1700000010, tv_nsec := 0 } ∧
    timedwaitTimeout (some (idleMonitorWakeupTime sampleTime)) = 3487928080 ∧
    timedwaitExpired (some (idleMonitorWakeupTime sampleTime)) 0 10001 = false ∧
    (run World.init [Action.lock 0, Action.timedwait 0]).map (World.view 1) =
      some ({ waiters_count_ := 1, release_count_ := 0, wait_generation_count_ := 0,
              event_ := false },
            none, [Pc.blocked true 0]) ∧
    (run World.init [Action.lock 0, Action.timedwait 0, Action.wake 0]).isNone = true ∧
    (run World.init [Action.lock 0, Action.timedwait 0, Action.check 0 true]).isNone
      = true := by
  decide

/-- C20, evaluated on the code: for `encfs C:\enc\raw C:\enc`, where the mount point followed
by a backslash is a prefix of the root directory, `processArgs` compares `C:\enc/` with the
first seven characters of `C:\enc\raw/`, finds them different and, everything else being in
order, returns true. -/
theorem processArgs_accepts_backslash_subdirectory :
    ("C:\\enc".toList ++ ['\\']).isPrefixOf "C:\\enc\\raw".toList = true ∧
    slashTerminate (unslashTerminate "C:\\enc".toList) = "C:\\enc/".toList ∧
    (slashTerminate (unslashTerminate "C:\\enc\\raw".toList)).take 7 = "C:\\enc\\".toList ∧
    processArgs allThere rawInsideMount = true := by
  decide

theorem slashTerminate_isPrefix (mountPoint rootDir : List Char)
    (h : (mountPoint ++ ['/']) <+: rootDir) : slashTerminate mountPoint <+: rootDir := by
  unfold slashTerminate
  split_ifs
  · exact (List.prefix_append mountPoint ['/']).trans h
  · exact h

theorem processArgs_rejects_slash_subdirectory (env : FileEnv) (a : ParsedArgs)
    (rootArg mountArg : List Char) (tl : List (List Char))
    (hrest : a.rest = rootArg :: mountArg :: tl)
    (hsub : (unslashTerminate mountArg ++ ['/']) <+:
      slashTerminate (unslashTerminate rootArg)) :
    processArgs env a = false := by
  have hp := slashTerminate_isPrefix _ _ hsub
  have ht := List.prefix_iff_eq_take.mp hp
  unfold processArgs
  rw [hrest]
  simp only
  split_ifs <;> rfl

/-! ## Invariants of the condition variable, the poll step, the generation -/

theorem step_release_le (w w1 : World) (a : Action) (hs : step w a = some w1)
    (h : w.cv.release_count_ ≤ w.cv.waiters_count_) :
    w1.cv.release_count_ ≤ w1.cv.waiters_count_ := by
  cases a with
  | lock t =>
    simp only [step] at hs
    split_ifs at hs
    cases hs
    exact h
  | unlock t =>
    simp only [step] at hs
    split_ifs at hs
    cases hs
    exact h
  | wait t =>
    simp only [step, stepEnter] at hs
    split_ifs at hs
    cases hs
    show w.cv.release_count_ ≤ w.cv.waiters_count_ + 1
    omega
  | timedwait t =>
    simp only [step, stepEnter] at hs
    split_ifs at hs
    cases hs
    show w.cv.release_count_ ≤ w.cv.waiters_count_ + 1
    omega
  | wake t =>
    simp only [step] at hs
    split at hs
    · split_ifs at hs
      cases hs
      exact h
    · cases hs
  | check t e =>
    simp only [step] at hs
    split at hs
    · split_ifs at hs <;> cases hs <;> exact h
    · cases hs
  | finish t =>
    simp only [step] at hs
    split at hs
    · by_cases hm : w.mutex = none
      · rw [if_pos hm] at hs
        cases hs
        show w.cv.release_count_ - 1 ≤ w.cv.waiters_count_ - 1
        omega
      · rw [if_neg hm] at hs
        cases hs
    · cases hs
  | reset t =>
    simp only [step] at hs
    split at hs
    · cases hs
      exact h
    · cases hs
  | signal =>
    simp only [step] at hs
    cases hs
    show (pthread_cond_signal w.cv).release_count_ ≤ (pthread_cond_signal w.cv).waiters_count_
    unfold pthread_cond_signal
    split_ifs with hg
    · show w.cv.release_count_ + 1 ≤ w.cv.waiters_count_
      omega
    · exact h
  | broadcast =>
    simp only [step] at hs
    cases hs
    show (pthread_cond_broadcast w.cv).release_count_ ≤
      (pthread_cond_broadcast w.cv).waiters_count_
    unfold pthread_cond_broadcast
    split_ifs with hg
    · exact le_refl _
    · exact h

theorem run_release_le (sched : List Action) (w w1 : World) (hrun : run w sched = some w1)
    (h : w.cv.release_count_ ≤ w.cv.waiters_count_) :
    w1.cv.release_count_ ≤ w1.cv.waiters_count_ := by
  induction sched generalizing w with
  | nil =>
    simp only [run] at hrun
    cases hrun
    exact h
  | cons a as ih =>
    simp only [run] at hrun
    cases hs : step w a with
    | none => rw [hs] at hrun; cases hrun
    | some w2 =>
      rw [hs] at hrun
      exact ih w2 hrun (step_release_le w w2 a hs h)

/-- C21: in every world reached from a freshly initialised condition variable by any schedule
of steps of any threads (entries into and exits from `pthread_cond_wait` and
`pthread_cond_timedwait`, the timeout exit included, signals, broadcasts, mutex operations),
`release_count_ ≤ waiters_count_`. -/
theorem release_count_le_waiters_count (sched : List Action) (w : World)
    (hrun : run World.init sched = some w) :
    w.cv.release_count_ ≤ w.cv.waiters_count_ :=
  run_release_le sched World.init w hrun (by decide)

theorem release_count_le_waiters_count_witness :
    ((run World.init (twoWaiters ++ oneSignalRace)).get (by decide)).cv.release_count_ ≤
    ((run World.init (twoWaiters ++ oneSignalRace)).get (by decide)).cv.waiters_count_ :=
  release_count_le_waiters_count (twoWaiters ++ oneSignalRace) _ (by simp)

/-- C22, evaluated on the code: thread 0 waits and is signalled, thread 1 enters
`pthread_cond_timedwait`; thread 0 leaves and decrements `release_count_` to 0; thread 1,
woken by the event that is still set, finds `wait_done` false and its deadline passed and
leaves by the timeout exit (counters 1 and 0 at that point); its final section decrements
`release_count_` again, to -1. -/
theorem release_count_negative_after_timeout :
    (run World.init (timeoutExit.take 12)).map (World.view 2) =
      some ({ waiters_count_ := 1, release_count_ := 0, wait_generation_count_ := 1,
              event_ := false },
            none, [Pc.returned false 0, Pc.leaving true 1]) ∧
    (run World.init timeoutExit).map (World.view 2) =
      some ({ waiters_count_ := 0, release_count_ := -1, wait_generation_count_ := 1,
              event_ := false },
            some 1, [Pc.returned false 0, Pc.returned true 1]) := by
  decide

/-- C23, evaluated on the code, both directions.  With two threads waiting, a signal releases
thread 0; a second signal arrives after its final section and before its `ResetEvent`, which
then clears the event: every operation has completed, `release_count_` is 1 and the event is
clear, so thread 1 cannot wake.  And in the world of C7 (a signal after the race) the event
is set while `release_count_` is 0. -/
theorem event_not_iff_release_owed :
    (run World.init (twoWaiters ++ signalBeforeReset)).map (World.view 2) =
      some ({ waiters_count_ := 1, release_count_ := 1, wait_generation_count_ := 2,
              event_ := false },
            none, [Pc.returned false 0, Pc.blocked false 0]) ∧
    (run World.init (twoWaiters ++ signalBeforeReset ++ [Action.wake 1])).isNone = true ∧
    (run World.init (twoWaiters ++ oneSignalRace ++ thirdWaiter ++ [Action.signal])).map
        (World.view 3) =
      some ({ waiters_count_ := 1, release_count_ := 0, wait_generation_count_ := 2,
              event_ := true },
            none, [Pc.returned false 0, Pc.returned false 0, Pc.blocked false 1]) := by
  decide

/-- C24: for every monitor state, threshold and unmount mode, a pass of the loop that reads no
operation while the session is mounted leaves `idleCycles` greater by exactly 1, and every
other pass (a usage count other than 0, or a session that is not mounted) leaves
`idleCycles = 0`. -/
theorem idleMonitor_poll_step (T : Int) (mountOnDemand : Bool) (p : Poll) (s : Monitor) :
    (p.usage = 0 → p.isMounted = true →
      (idleMonitorBody T mountOnDemand p s).idleCycles = s.idleCycles + 1) ∧
    (p.usage ≠ 0 ∨ p.isMounted = false →
      (idleMonitorBody T mountOnDemand p s).idleCycles = 0) := by
  rw [idleMonitorBody_idleCycles]
  constructor
  · intro hu hm
    simp [hu, hm]
  · intro h
    rcases h with h | h
    · simp [h]
    · simp [h]

theorem idleMonitor_poll_step_witness :
    (idleMonitorBody 6 false idlePoll monitorAtFive).idleCycles = monitorAtFive.idleCycles + 1 ∧
    (idleMonitorBody 6 false { idlePoll with usage := 3 } monitorAtFive).idleCycles = 0 :=
  ⟨(idleMonitor_poll_step 6 false idlePoll monitorAtFive).1 rfl rfl,
   (idleMonitor_poll_step 6 false { idlePoll with usage := 3 } monitorAtFive).2
     (Or.inl (by decide))⟩

/-- No step lowers the generation.  A step either leaves it as it is or adds exactly 1, and
it adds 1 only when the step is a `pthread_cond_signal` with
`waiters_count_ > release_count_` (which then adds 1 to `release_count_`) or a
`pthread_cond_broadcast` with `waiters_count_ > 0` (which then sets `release_count_` to
`waiters_count_`); entries into and exits from the two wait calls never change it.  Along
every schedule the generation at the end is at least the one at the start. -/
theorem generation_never_decreases (w w1 : World) (a : Action) (hs : step w a = some w1) :
    w.cv.wait_generation_count_ ≤ w1.cv.wait_generation_count_ ∧
    (w1.cv.wait_generation_count_ = w.cv.wait_generation_count_ ∨
      w1.cv.wait_generation_count_ = w.cv.wait_generation_count_ + 1) ∧
    (w1.cv.wait_generation_count_ ≠ w.cv.wait_generation_count_ →
      w1.cv.event_ = true ∧
      ((a = Action.signal ∧ w.cv.waiters_count_ > w.cv.release_count_ ∧
          w1.cv.release_count_ = w.cv.release_count_ + 1) ∨
       (a = Action.broadcast ∧ w.cv.waiters_count_ > 0 ∧
          w1.cv.release_count_ = w.cv.waiters_count_))) ∧
    (a.thread ≠ none → w1.cv.wait_generation_count_ = w.cv.wait_generation_count_) ∧
    (∀ (sched : List Action) (w2 : World), run w sched = some w2 →
      w.cv.wait_generation_count_ ≤ w2.cv.wait_generation_count_) := by
  have hg := step_generation w w1 a hs
  refine ⟨?_, ?_, ?_, ?_, ?_⟩
  · rw [hg]; split_ifs <;> omega
  · rw [hg]; split_ifs <;> omega
  · intro hne
    have hte : takesEffect w.cv a = true := by
      by_contra hc
      rw [if_neg hc] at hg
      exact hne (by omega)
    cases a with
    | signal =>
      simp only [takesEffect, decide_eq_true_eq] at hte
      simp only [step] at hs
      cases hs
      have hgt : w.cv.waiters_count_ > w.cv.release_count_ := hte
      refine ⟨?_, Or.inl ⟨rfl, hte, ?_⟩⟩
      · simp [pthread_cond_signal, hgt]
      · simp [pthread_cond_signal, hgt]
    | broadcast =>
      simp only [takesEffect, decide_eq_true_eq] at hte
      simp only [step] at hs
      cases hs
      have hgt : w.cv.waiters_count_ > 0 := hte
      refine ⟨?_, Or.inr ⟨rfl, hte, ?_⟩⟩
      · simp [pthread_cond_broadcast, hgt]
      · simp [pthread_cond_broadcast, hgt]
    | lock t => simp [takesEffect] at hte
    | unlock t => simp [takesEffect] at hte
    | wait t => simp [takesEffect] at hte
    | timedwait t => simp [takesEffect] at hte
    | wake t => simp [takesEffect] at hte
    | check t e => simp [takesEffect] at hte
    | finish t => simp [takesEffect] at hte
    | reset t => simp [takesEffect] at hte
  · intro hth
    have hte : takesEffect w.cv a = false := by
      cases a <;> first | rfl | exact absurd rfl hth
    rw [hg, hte]
    simp
  · intro sched w2 hrun
    have := run_generation sched w w2 hrun
    omega

theorem generation_never_decreases_witness :
    step lockedByZero (Action.wait 0) = some zeroWaiting ∧
    lockedByZero.cv.wait_generation_count_ ≤ zeroWaiting.cv.wait_generation_count_ ∧
    zeroWaiting.cv.wait_generation_count_ = lockedByZero.cv.wait_generation_count_ :=
  have h := generation_never_decreases lockedByZero zeroWaiting (Action.wait 0) rfl
  ⟨rfl, h.1, h.2.2.2.1 (by simp [Action.thread])⟩

/-- C25, evaluated on the code: after `twoWaiters ++ oneSignalRace` both threads have
returned, no thread is inside a wait call, and the counters are 0 and -1 with generation 1.
A `pthread_cond_signal` issued then finds `waiters_count_ > release_count_` and advances the
generation to 2, leaving `release_count_ = 0`: nobody is released by it.  A thread that
enters `pthread_cond_wait` afterwards and wakes on the event evaluates `wait_done` as false
and blocks again.  `pthread_cond_broadcast` in the same state leaves the generation at 1. -/
theorem generation_advances_without_release :
    (run World.init (twoWaiters ++ oneSignalRace)).map (World.view 2) =
      some ({ waiters_count_ := 0, release_count_ := -1, wait_generation_count_ := 1,
              event_ := false },
            none, [Pc.returned false 0, Pc.returned false 0]) ∧
    (run World.init (twoWaiters ++ oneSignalRace ++ [Action.signal])).map (World.view 2) =
      some ({ waiters_count_ := 0, release_count_ := 0, wait_generation_count_ := 2,
              event_ := true },
            none, [Pc.returned false 0, Pc.returned false 0]) ∧
    (run World.init (twoWaiters ++ oneSignalRace ++ [Action.signal] ++ thirdWaiter ++
        [Action.wake 2, Action.check 2 false])).map (World.view 3) =
      some ({ waiters_count_ := 1, release_count_ := 0, wait_generation_count_ := 2,
              event_ := true },
            none, [Pc.returned false 0, Pc.returned false 0, Pc.blocked false 2]) ∧
    (run World.init (twoWaiters ++ oneSignalRace ++ [Action.broadcast])).map (World.view 2) =
      some ({ waiters_count_ := 0, release_count_ := -1, wait_generation_count_ := 1,
              event_ := false },
            none, [Pc.returned false 0, Pc.returned false 0]) := by
  decide

/-! ## Truncation and file times -/

/-- C26, evaluated on the code: with both system calls succeeding, `truncate_handle`,
`ftruncate` and `truncate` return -1 for every length that is a multiple of 2^32 (the value
returned by the successful `SetFilePointer` is then 0, which the test takes for a failure),
in particular for the lengths 0 and 2^32; for the length 5 they return 0. -/
theorem truncate_handle_fails_on_zero_low_word (k : Nat) :
    truncate_handle callsSucceed (k * 4294967296) = -1 ∧
    ftruncate callsSucceed (k * 4294967296) = -1 ∧
    truncate true callsSucceed (k * 4294967296) = -1 ∧
    truncate_handle callsSucceed 0 = -1 ∧
    truncate_handle callsSucceed 4294967296 = -1 ∧
    truncate_handle callsSucceed 5 = 0 := by
  have h : truncate_handle callsSucceed (k * 4294967296) = -1 := by
    simp [truncate_handle, SetFilePointer, SetEndOfFile, callsSucceed]
  refine ⟨h, h, ?_, by decide, by decide, by decide⟩
  simpa [truncate] using h

/-- C28: for every `timeval` whose `tv_sec` is a 32-bit signed value and whose `tv_usec` is
at least 0 and below 1000000, the two halves of the `FILETIME` are `DWORD` values and
`dwHighDateTime * 2^32 + dwLowDateTime` is
`10000000 * tv_sec + 10 * tv_usec + 116444736000000000` modulo 2^64 (the sum itself, which
is positive and below 2^63). -/
theorem timevalToFiletime_value (t : timeval)
    (hsec : -2147483648 ≤ t.tv_sec ∧ t.tv_sec < 2147483648)
    (husec : 0 ≤ t.tv_usec ∧ t.tv_usec < 1000000) :
    (timevalToFiletime t).dwHighDateTime * 4294967296 + (timevalToFiletime t).dwLowDateTime =
      (10000000 * t.tv_sec + 10 * t.tv_usec + 116444736000000000) % 18446744073709551616 ∧
    (10000000 * t.tv_sec + 10 * t.tv_usec + 116444736000000000) % 18446744073709551616 =
      10000000 * t.tv_sec + 10 * t.tv_usec + 116444736000000000 ∧
    0 ≤ (timevalToFiletime t).dwLowDateTime ∧
    (timevalToFiletime t).dwLowDateTime < 4294967296 ∧
    0 ≤ (timevalToFiletime t).dwHighDateTime ∧
    (timevalToFiletime t).dwHighDateTime < 4294967296 := by
  obtain ⟨s1, s2⟩ := hsec
  obtain ⟨u1, u2⟩ := husec
  simp only [timevalToFiletime, Int32x32To64, wrapInt64, wrapInt32]
  have e1 : (t.tv_sec + 2147483648) % 4294967296 - 2147483648 = t.tv_sec := by omega
  have e2 : ((10000000 : Int) + 2147483648) % 4294967296 - 2147483648 = 10000000 := by decide
  have e3 : (10 * t.tv_usec) % 4294967296 = 10 * t.tv_usec := by omega
  rw [e1, e2, e3]
  generalize hv : t.tv_sec * 10000000 + 116444736000000000 + 10 * t.tv_usec = v
  have hv1 : 0 ≤ v := by omega
  have hv2 : v < 9223372036854775808 := by omega
  have e4 : (v + 9223372036854775808) % 18446744073709551616 - 9223372036854775808 = v := by
    omega
  have e5 : 10000000 * t.tv_sec + 10 * t.tv_usec + 116444736000000000 = v := by omega
  rw [e4, e5]
  omega

theorem timevalToFiletime_value_witness :
    (timevalToFiletime { tv_sec := 1, tv_usec := 5 }).dwHighDateTime * 4294967296 +
      (timevalToFiletime { tv_sec := 1, tv_usec := 5 }).dwLowDateTime =
      (10000000 * 1 + 10 * 5 + 116444736000000000) % 18446744073709551616 :=
  (timevalToFiletime_value { tv_sec := 1, tv_usec := 5 } (by decide) (by decide)).1

/-! ## The table of error codes -/

theorem errtable_roundtrip :
    ∀ e ∈ (0 : Int) :: errtable.map errentry.errnocode,
      win32_error_to_errno (errno_to_win32_error e) = e := by
  decide

/-- C27: for `e = 0` and for every `errno` value `e` that occurs in `errtable`,
`win32_error_to_errno (errno_to_win32_error e) = e`. -/
theorem win32_error_to_errno_errno_to_win32_error (e : Int)
    (h : e = 0 ∨ e ∈ errtable.map errentry.errnocode) :
    win32_error_to_errno (errno_to_win32_error e) = e :=
  errtable_roundtrip e (List.mem_cons.mpr h)

theorem win32_error_to_errno_errno_to_win32_error_witness :
    errno_to_win32_error EBADF = ERROR_INVALID_HANDLE ∧
    win32_error_to_errno (errno_to_win32_error EBADF) = EBADF :=
  ⟨by decide, win32_error_to_errno_errno_to_win32_error EBADF (Or.inr (by decide))⟩

/-! ## File names for the wide-character system calls -/

theorem replaceSlashes_terminated (q rest : List Char) (hq : ∀ c ∈ q, c ≠ NUL) :
    replaceSlashes (q ++ NUL :: rest) = convertSlashes q ++ NUL :: rest := by
  induction q with
  | nil => simp [replaceSlashes, convertSlashes]
  | cons c cs ih =>
    have hc : c ≠ NUL := hq c (List.mem_cons_self _ _)
    have hcs : ∀ d ∈ cs, d ≠ NUL := fun d hd => hq d (List.mem_cons_of_mem _ hd)
    have := ih hcs
    simp only [convertSlashes] at this
    simp [replaceSlashes, convertSlashes, hc, this]

theorem cString_terminated (q rest : List Char) (hq : ∀ c ∈ q, c ≠ NUL) :
    cString (q ++ NUL :: rest) = q := by
  induction q with
  | nil => simp [cString]
  | cons c cs ih =>
    have hc : c ≠ NUL := hq c (List.mem_cons_self _ _)
    have hcs : ∀ d ∈ cs, d ≠ NUL := fun d hd => hq d (List.mem_cons_of_mem _ hd)
    have := ih hcs
    simp only [cString] at this
    simp [cString, hc, this]

theorem convertSlashes_no_NUL (p : List Char) (hp : ∀ c ∈ p, c ≠ NUL) :
    ∀ c ∈ convertSlashes p, c ≠ NUL := by
  intro c hc
  simp only [convertSlashes, List.mem_map] at hc
  obtain ⟨d, hd, rfl⟩ := hc
  split_ifs
  · decide
  · exact hp d hd

theorem convertSlashes_no_slash (p : List Char) : '/' ∉ convertSlashes p := by
  intro hc
  simp only [convertSlashes, List.mem_map] at hc
  obtain ⟨d, _, hd⟩ := hc
  split_ifs at hd with h
  · exact absurd hd (by decide)
  · exact h hd

theorem utf8_to_wfn_buffer (p : List Char) (hp : ∀ c ∈ p, c ≠ NUL) :
    (memcpy (List.replicate (p.length + 1 + 6) NUL) 6 (p ++ [NUL])).take 6 ++
      replaceSlashes ((memcpy (List.replicate (p.length + 1 + 6) NUL) 6 (p ++ [NUL])).drop 6) =
    NUL :: NUL :: NUL :: NUL :: NUL :: NUL :: (convertSlashes p ++ [NUL]) := by
  have h1 : memcpy (List.replicate (p.length + 1 + 6) NUL) 6 (p ++ [NUL]) =
      NUL :: NUL :: NUL :: NUL :: NUL :: NUL :: (p ++ [NUL]) := by
    simp [memcpy, List.take_replicate, List.drop_replicate, List.replicate]
    omega
  rw [h1]
  have h2 := replaceSlashes_terminated p [] hp
  simp [h2]

theorem drive_test_iff (c : Char) (hc : c.toNat < 128) :
    ('a'.toNat ≤ tolower (if c = '/' then '\\' else c).toNat % 256 ∧
      tolower (if c = '/' then '\\' else c).toNat % 256 ≤ 'z'.toNat) ↔
    isDriveLetter c = true := by
  have ha : 'a'.toNat = 97 := rfl
  have hz : 'z'.toNat = 122 := rfl
  have hA : 'A'.toNat = 65 := rfl
  have hZ : 'Z'.toNat = 90 := rfl
  simp only [isDriveLetter, decide_eq_true_eq, ha, hz, hA, hZ]
  by_cases h : c = '/'
  · subst h
    decide
  · rw [if_neg h]
    unfold tolower
    split_ifs <;> omega

theorem colon_test_iff (d : Char) : (if d = '/' then '\\' else d) = ':' ↔ d = ':' := by
  by_cases h : d = '/'
  · subst h
    decide
  · rw [if_neg h]

theorem utf8_to_wfn_eq_spec (utf8_to_wchar_buf : List Char → Nat → List Char)
    (p : List Char) (hascii : ∀ c ∈ p, c ≠ NUL ∧ c.toNat < 128)
    (hdecode : utf8_to_wchar_buf p (p.length + 1) = p ++ [NUL]) :
    utf8_to_wfn utf8_to_wchar_buf p = utf8_to_wfn_spec p := by
  have hp : ∀ c ∈ p, c ≠ NUL := fun c hc => (hascii c hc).1
  have hq := convertSlashes_no_NUL p hp
  unfold utf8_to_wfn
  simp only [hdecode, utf8_to_wfn_buffer p hp]
  match p, hascii, hp, hq with
  | [], _, _, _ => decide
  | [c], _, _, hq =>
    have hc : (if c = '/' then '\\' else c) ≠ NUL := hq _ (by simp [convertSlashes])
    have h1 : ¬ (NUL = ':') := by decide
    have h2 : ¬ (NUL = '\\') := by decide
    simp [convertSlashes, utf8_to_wfn_spec, startsWithDrive, startsWithTwoBackslashes,
      List.getD, h1, h2, cString, hc]
  | c :: d :: r, hascii, _, hq =>
    have hc128 : c.toNat < 128 := (hascii c (by simp)).2
    have hdrive := drive_test_iff c hc128
    have hcolon := colon_test_iff d
    have hr : ∀ x ∈ convertSlashes r, x ≠ NUL := fun x hx =>
      hq x (by simp only [convertSlashes, List.map_cons, List.mem_cons] at hx ⊢; tauto)
    have hc0 : (if c = '/' then '\\' else c) ≠ NUL := hq _ (by simp [convertSlashes])
    have hd0 : (if d = '/' then '\\' else d) ≠ NUL := hq _ (by simp [convertSlashes])
    have hbs : '\\' ≠ NUL := by decide
    have hqm : '?' ≠ NUL := by decide
    have hU : 'U' ≠ NUL := by decide
    have hN : 'N' ≠ NUL := by decide
    have hC : 'C' ≠ NUL := by decide
    by_cases hD : isDriveLetter c = true ∧ d = ':'
    · have hcond : 'a'.toNat ≤ tolower (if c = '/' then '\\' else c).toNat % 256 ∧
          tolower (if c = '/' then '\\' else c).toNat % 256 ≤ 'z'.toNat ∧
          (if d = '/' then '\\' else d) = ':' :=
        ⟨(hdrive.mpr hD.1).1, (hdrive.mpr hD.1).2, hcolon.mpr hD.2⟩
      have hspec : startsWithDrive (c :: d :: r) = true := by
        simp [startsWithDrive, hD.1, hD.2]
      simp only [utf8_to_wfn_spec, hspec, if_true, convertSlashes, List.map_cons,
        List.cons_append, List.getD_cons_succ, List.getD_cons_zero]
      rw [if_pos hcond]
      show cString ('\\' :: '\\' :: '?' :: '\\' :: (if c = '/' then '\\' else c) ::
        (if d = '/' then '\\' else d) :: (convertSlashes r ++ [NUL])) = _
      have := cString_terminated ('\\' :: '\\' :: '?' :: '\\' ::
        (if c = '/' then '\\' else c) :: (if d = '/' then '\\' else d) :: convertSlashes r) []
        (by
          intro x hx
          simp only [List.mem_cons] at hx
          rcases hx with rfl | rfl | rfl | rfl | rfl | rfl | hx
          · exact hbs
          · exact hbs
          · exact hqm
          · exact hbs
          · exact hc0
          · exact hd0
          · exact hr x hx)
      simpa [convertSlashes] using this
    · have hcond : ¬ ('a'.toNat ≤ tolower (if c = '/' then '\\' else c).toNat % 256 ∧
          tolower (if c = '/' then '\\' else c).toNat % 256 ≤ 'z'.toNat ∧
          (if d = '/' then '\\' else d) = ':') := by
        intro h
        exact hD ⟨hdrive.mp ⟨h.1, h.2.1⟩, hcolon.mp h.2.2⟩
      have hspec : startsWithDrive (c :: d :: r) = false := by
        simp only [startsWithDrive, Bool.and_eq_false_imp, decide_eq_false_iff_not]
        intro h1 h2
        exact hD ⟨h1, h2⟩
      simp only [utf8_to_wfn_spec, hspec, convertSlashes, List.map_cons,
        List.cons_append, List.getD_cons_succ, List.getD_cons_zero]
      rw [if_neg hcond]
      by_cases hU2 : (if c = '/' then '\\' else c) = '\\' ∧ (if d = '/' then '\\' else d) = '\\'
      · have hs2 : startsWithTwoBackslashes ((if c = '/' then '\\' else c) ::
            (if d = '/' then '\\' else d) :: List.map (fun c => if c = '/' then '\\' else c) r)
            = true := by
          simp [startsWithTwoBackslashes, hU2.1, hU2.2]
        rw [if_pos hU2]
        simp only [hs2, Bool.false_eq_true, if_false, if_true, List.tail_cons]
        show cString ('\\' :: '\\' :: '?' :: '\\' :: 'U' :: 'N' :: 'C' ::
          (if d = '/' then '\\' else d) :: (convertSlashes r ++ [NUL])) = _
        have := cString_terminated ('\\' :: '\\' :: '?' :: '\\' :: 'U' :: 'N' :: 'C' ::
          (if d = '/' then '\\' else d) :: convertSlashes r) []
          (by
            intro x hx
            simp only [List.mem_cons] at hx
            rcases hx with rfl | rfl | rfl | rfl | rfl | rfl | rfl | rfl | hx
            · exact hbs
            · exact hbs
            · exact hqm
            · exact hbs
            · exact hU
            · exact hN
            · exact hC
            · exact hd0
            · exact hr x hx)
        simpa [convertSlashes] using this
      · have hs2 : startsWithTwoBackslashes ((if c = '/' then '\\' else c) ::
            (if d = '/' then '\\' else d) :: List.map (fun c => if c = '/' then '\\' else c) r)
            = false := by
          simp only [startsWithTwoBackslashes, Bool.and_eq_false_imp, decide_eq_true_eq,
            decide_eq_false_iff_not]
          intro h1 h2
          exact hU2 ⟨h1, h2⟩
        rw [if_neg hU2]
        simp only [hs2, Bool.false_eq_true, if_false]
        show cString ((if c = '/' then '\\' else c) ::
          (if d = '/' then '\\' else d) :: (convertSlashes r ++ [NUL])) = _
        have := cString_terminated ((if c = '/' then '\\' else c) ::
          (if d = '/' then '\\' else d) :: convertSlashes r) []
          (by
            intro x hx
            simp only [List.mem_cons] at hx
            rcases hx with rfl | rfl | hx
            · exact hc0
            · exact hd0
            · exact hr x hx)
        simpa [convertSlashes] using this

theorem utf8_to_wfn_spec_no_slash (p : List Char) : '/' ∉ utf8_to_wfn_spec p := by
  have h := convertSlashes_no_slash p
  have ht : '/' ∉ (convertSlashes p).tail := fun hm => h (List.mem_of_mem_tail hm)
  unfold utf8_to_wfn_spec
  split_ifs
  · intro hm
    simp only [List.cons_append, List.nil_append, List.mem_cons] at hm
    rcases hm with hm | hm | hm | hm | hm
    · exact absurd hm (by decide)
    · exact absurd hm (by decide)
    · exact absurd hm (by decide)
    · exact absurd hm (by decide)
    · exact h hm
  · intro hm
    simp only [List.cons_append, List.nil_append, List.mem_cons] at hm
    rcases hm with hm | hm | hm | hm | hm | hm | hm | hm
    · exact absurd hm (by decide)
    · exact absurd hm (by decide)
    · exact absurd hm (by decide)
    · exact absurd hm (by decide)
    · exact absurd hm (by decide)
    · exact absurd hm (by decide)
    · exact absurd hm (by decide)
    · exact ht hm
  · exact h

theorem utf8_to_wfn_examples :
    utf8_to_wfn asciiToWchar "C:/enc/a".toList = "\\\\?\\C:\\enc\\a".toList ∧
    utf8_to_wfn asciiToWchar "//host/share".toList = "\\\\?\\UNC\\host\\share".toList ∧
    utf8_to_wfn asciiToWchar "dir/file".toList = "dir\\file".toList ∧
    utf8_to_wfn asciiToWchar [] = [] := by
  decide

/-- C29: for every path `p` of ASCII characters (codes 1 to 127, which `utf8_to_wchar_buf`
stores unchanged and terminated), the result of `utf8_to_wfn` contains no slash and is the
string of the specification: the prefix of four characters and the converted path when `p`
starts with a drive letter and a colon; the prefix of seven characters and the converted
path without its first backslash when the converted path starts with two backslashes; the
converted path otherwise. -/
theorem utf8_to_wfn_ascii (utf8_to_wchar_buf : List Char → Nat → List Char)
    (p : List Char) (hascii : ∀ c ∈ p, c ≠ NUL ∧ c.toNat < 128)
    (hdecode : utf8_to_wchar_buf p (p.length + 1) = p ++ [NUL]) :
    '/' ∉ utf8_to_wfn utf8_to_wchar_buf p ∧
    utf8_to_wfn utf8_to_wchar_buf p = utf8_to_wfn_spec p ∧
    (startsWithDrive p = true →
      utf8_to_wfn utf8_to_wchar_buf p = ['\\', '\\', '?', '\\'] ++ convertSlashes p) ∧
    (startsWithDrive p = false → startsWithTwoBackslashes (convertSlashes p) = true →
      utf8_to_wfn utf8_to_wchar_buf p =
        ['\\', '\\', '?', '\\', 'U', 'N', 'C'] ++ (convertSlashes p).tail) ∧
    (startsWithDrive p = false → startsWithTwoBackslashes (convertSlashes p) = false →
      utf8_to_wfn utf8_to_wchar_buf p = convertSlashes p) := by
  rw [utf8_to_wfn_eq_spec utf8_to_wchar_buf p hascii hdecode]
  refine ⟨utf8_to_wfn_spec_no_slash p, rfl, ?_, ?_, ?_⟩
  · intro h
    simp [utf8_to_wfn_spec, h]
  · intro h1 h2
    simp [utf8_to_wfn_spec, h1, h2]
  · intro h1 h2
    simp [utf8_to_wfn_spec, h1, h2]

theorem utf8_to_wfn_ascii_witness :
    '/' ∉ utf8_to_wfn asciiToWchar "C:/enc".toList ∧
    utf8_to_wfn asciiToWchar "C:/enc".toList = utf8_to_wfn_spec "C:/enc".toList :=
  have h := utf8_to_wfn_ascii asciiToWchar "C:/enc".toList (by decide) (by decide)
  ⟨h.1, h.2.1⟩

/-! ## The sign of the two counters -/

theorem sumPc_extend (f : Pc → Nat) (pc : Nat → Pc) (N M : Nat) (hNM : N ≤ M)
    (h : ∀ t, N ≤ t → f (pc t) = 0) : sumPc f pc M = sumPc f pc N := by
  induction M with
  | zero =>
    have : N = 0 := by omega
    rw [this]
  | succ M ih =>
    by_cases hM : N = M + 1
    · rw [hM]
    · simp only [sumPc]
      rw [ih (by omega), h M (by omega)]
      rfl

theorem counted_update (w w1 : World) (t : Nat) (p : Pc) (hC : Counted w)
    (hpc : w1.pc = setPc w.pc t p)
    (hwc : w1.cv.waiters_count_ + ((w.pc t).pending : Int) =
      w.cv.waiters_count_ + (p.pending : Int)) : Counted w1 := by
  obtain ⟨N, hN, hsum⟩ := hC
  refine ⟨max N (t + 1), ?_, ?_⟩
  · intro u hu
    rw [hpc, setPc_ne _ _ _ _ (by omega)]
    exact hN u (by omega)
  · have h1 := sumPc_extend Pc.pending w.pc N (max N (t + 1)) (le_max_left _ _) hN
    have h2 := sumPc_setPc Pc.pending w.pc t p (max N (t + 1)) (by omega)
    rw [hpc]
    omega

theorem counted_same (w w1 : World) (hC : Counted w) (hpc : w1.pc = w.pc)
    (hwc : w1.cv.waiters_count_ = w.cv.waiters_count_) : Counted w1 := by
  obtain ⟨N, hN, hsum⟩ := hC
  exact ⟨N, by rw [hpc]; exact hN, by rw [hpc, hwc]; exact hsum⟩

theorem outside_pending (p : Pc) (h : p.outside = true) : p.pending = 0 := by
  cases p <;> simp_all [Pc.outside, Pc.pending]

theorem step_counted (w w1 : World) (a : Action) (hs : step w a = some w1)
    (hC : Counted w) : Counted w1 := by
  cases a with
  | lock t =>
    simp only [step] at hs
    split_ifs at hs
    cases hs
    exact counted_same w _ hC rfl rfl
  | unlock t =>
    simp only [step] at hs
    split_ifs at hs
    cases hs
    exact counted_same w _ hC rfl rfl
  | wait t =>
    simp only [step, stepEnter] at hs
    split_ifs at hs with hg
    cases hs
    refine counted_update w _ t _ hC rfl ?_
    rw [outside_pending _ hg.2]
    simp [waitEnter, Pc.pending]
  | timedwait t =>
    simp only [step, stepEnter] at hs
    split_ifs at hs with hg
    cases hs
    refine counted_update w _ t _ hC rfl ?_
    rw [outside_pending _ hg.2]
    simp [waitEnter, Pc.pending]
  | wake t =>
    simp only [step] at hs
    split at hs
    · rename_i timed g hpc
      split_ifs at hs
      cases hs
      refine counted_update w _ t _ hC rfl ?_
      rw [hpc]
      simp [Pc.pending]
    · cases hs
  | check t e =>
    simp only [step] at hs
    split at hs
    · rename_i timed g hpc
      split_ifs at hs <;> cases hs <;>
        (refine counted_update w _ t _ hC rfl ?_; rw [hpc]; simp [Pc.pending])
    · cases hs
  | finish t =>
    simp only [step] at hs
    split at hs
    · rename_i timed g hpc
      by_cases hm : w.mutex = none
      · rw [if_pos hm] at hs
        cases hs
        refine counted_update w _ t _ hC rfl ?_
        rw [hpc]
        show w.cv.waiters_count_ - 1 + ((Pc.leaving timed g).pending : Int) = _
        split_ifs <;> simp [Pc.pending]
      · rw [if_neg hm] at hs
        cases hs
    · cases hs
  | reset t =>
    simp only [step] at hs
    split at hs
    · rename_i timed g hpc
      cases hs
      refine counted_update w _ t _ hC rfl ?_
      rw [hpc]
      simp [resetEvent, Pc.pending]
    · cases hs
  | signal =>
    simp only [step] at hs
    cases hs
    refine counted_same w _ hC rfl ?_
    show (pthread_cond_signal w.cv).waiters_count_ = _
    unfold pthread_cond_signal
    split_ifs <;> rfl
  | broadcast =>
    simp only [step] at hs
    cases hs
    refine counted_same w _ hC rfl ?_
    show (pthread_cond_broadcast w.cv).waiters_count_ = _
    unfold pthread_cond_broadcast
    split_ifs <;> rfl

theorem run_counted (sched : List Action) (w w1 : World) (hrun : run w sched = some w1)
    (hC : Counted w) : Counted w1 := by
  induction sched generalizing w with
  | nil =>
    simp only [run] at hrun
    cases hrun
    exact hC
  | cons a as ih =>
    simp only [run] at hrun
    cases hs : step w a with
    | none => rw [hs] at hrun; cases hrun
    | some w2 =>
      rw [hs] at hrun
      exact ih w2 hrun (step_counted w w2 a hs hC)

theorem waiters_count_nonneg (sched : List Action) (w : World)
    (hrun : run World.init sched = some w) : 0 ≤ w.cv.waiters_count_ := by
  have h0 : Counted World.init := ⟨0, fun _ _ => rfl, rfl⟩
  obtain ⟨N, _, hsum⟩ := run_counted sched World.init w hrun h0
  rw [hsum]
  exact Int.natCast_nonneg _

end EncFS
